import Mathlib

/-!
# Verification of the Plan Validation & Replanning Execution Engine

This file gives a shallow embedding of the plan engine implemented in
`planner_executor_local/main.py` (plan normalizer, schema validator,
predicate builder/evaluator, verification application, step executor,
plan/replan parsing with bounded retry, and the top-level replanning
controller loop), and proves or refutes the specified properties.

Conventions:
* Parsed JSON plans are modelled by the inductive `JVal`; Python `dict`
  operations are modelled by association-list operations that preserve
  insertion order (as Python dicts do).
* Pure Python functions become Lean functions with the same names where
  Lean allows it.  Fallible code returns `Except String`.
* External collaborators (LLM oracles, the browser action backend, the
  SDK runtime) are parameters; where their behaviour decides a claim it
  is modelled from the specification and marked `Modelled from the spec`.
-/

/-! ## Characters and strings (Python semantics helpers) -/

/-- Whitespace as recognised by the Python `str.strip`/regex `\s` model
(space, tab, newline, carriage return; ASCII model). -/
def isWs (c : Char) : Bool := c == ' ' || c == '\t' || c == '\n' || c == '\r'

/-- `charsPrefix p l` is true iff `p` is a prefix of `l`. -/
def charsPrefix : List Char → List Char → Bool
  | [], _ => true
  | _ :: _, [] => false
  | a :: as, b :: bs => a == b && charsPrefix as bs

/-- `charsContains n l` is true iff `n` occurs contiguously in `l`. -/
def charsContains (needle : List Char) : List Char → Bool
  | [] => charsPrefix needle []
  | c :: rest => charsPrefix needle (c :: rest) || charsContains needle rest

/-- Python `needle in hay` for strings. -/
def strContains (hay needle : String) : Bool := charsContains needle.toList hay.toList

/-- Python `s.startswith(p)`. -/
def strStartsWith (s p : String) : Bool := charsPrefix p.toList s.toList

/-- Python `s.endswith(p)`. -/
def strEndsWith (s p : String) : Bool := charsPrefix p.toList.reverse s.toList.reverse

/-- Python `s.upper()` (ASCII model). -/
def pyUpper (s : String) : String := String.mk (s.toList.map Char.toUpper)

/-- Python `s.lower()` (ASCII model). -/
def pyLower (s : String) : String := String.mk (s.toList.map Char.toLower)

/-- Strip leading and trailing whitespace from a character list. -/
def stripChars (l : List Char) : List Char :=
  ((l.dropWhile isWs).reverse.dropWhile isWs).reverse

/-- Python `s.strip()`. -/
def pyStrip (s : String) : String := String.mk (stripChars s.toList)

/-- Python `s.rstrip("/")` as used by `is_search_results_url`. -/
def rstripSlash (s : String) : String :=
  String.mk ((s.toList.reverse.dropWhile (· == '/')).reverse)

/-- Drop the first `n` characters of a string (Python `s[n:]`). -/
def strDrop (s : String) (n : Nat) : String := String.mk (s.toList.drop n)

/-- Python `s[a:b]` for `0 ≤ a ≤ b`. -/
def strSlice (s : String) (a b : Nat) : String := String.mk ((s.toList.take b).drop a)

/-! ## JSON values and Python-dict operations -/

/-- JSON-like values: the shape of parsed plans (`json.loads` output). -/
inductive JVal where
  | str (s : String)
  | int (n : Int)
  | bool (b : Bool)
  | null
  | arr (xs : List JVal)
  | obj (fields : List (String × JVal))

/-- First binding of `key` in an association list (Python `d.get(key)`;
real parsed JSON objects have no duplicate keys). -/
def objGet : List (String × JVal) → String → Option JVal
  | [], _ => none
  | (k, v) :: rest, key => if k == key then some v else objGet rest key

/-- Python `key in d`. -/
def objHas (fs : List (String × JVal)) (key : String) : Bool := (objGet fs key).isSome

/-- Python `d[key] = v`: replace the binding in place, else append. -/
def objSet : List (String × JVal) → String → JVal → List (String × JVal)
  | [], key, v => [(key, v)]
  | (k, w) :: rest, key, v =>
    if k == key then (k, v) :: rest else (k, w) :: objSet rest key v

/-- Python `d.pop(key, None)` (drops every binding of `key`; identical to
the single-binding pop on duplicate-free dicts). -/
def objPop (fs : List (String × JVal)) (key : String) : List (String × JVal) :=
  fs.filter (fun kv => kv.1 != key)

/-- Python `d.get(key)` lifted to `JVal` (non-dicts raise, modelled by `none`
at call sites that guard; see each use). -/
def JVal.get : JVal → String → Option JVal
  | .obj fs, k => objGet fs k
  | _, _ => none

/-- Python truthiness of a JSON value. -/
def jTruthyV : JVal → Bool
  | .str s => s != ""
  | .int n => n != 0
  | .bool b => b
  | .null => false
  | .arr l => !l.isEmpty
  | .obj fs => !fs.isEmpty

/-- Python truthiness of `d.get(key)` (missing key → `None` → falsy). -/
def jTruthy : Option JVal → Bool
  | none => false
  | some v => jTruthyV v

/-- Is the value a JSON string? (`isinstance(x, str)`). -/
def isStrJ : JVal → Bool
  | .str _ => true
  | _ => false

/-! ## Plan Normalizer (`normalize_plan`, main.py 451-503) -/

/-- One rewritten `url_contains` argument: `{"predicate": "url_contains", "args": [a]}`. -/
def wrapUrlContains (a : JVal) : JVal :=
  .obj [("predicate", .str "url_contains"), ("args", .arr [a])]

/-- Action case/synonym folding: `step["action"] = action.strip().upper()`,
with `"TYPE"` mapped to `"TYPE_AND_SUBMIT"`. -/
def actionAlias (a : String) : String :=
  let u := pyUpper (pyStrip a)
  if u == "TYPE" then "TYPE_AND_SUBMIT" else u

/-- First predicate rewrite inside the `for v in verify` loop: a
`url_contains` whose `args` is a list of more than one string becomes an
`any_of` of single-argument `url_contains` nodes. -/
def nveMultiArg (fs : List (String × JVal)) : List (String × JVal) :=
  match objGet fs "predicate", objGet fs "args" with
  | some (.str "url_contains"), some (.arr args) =>
    if decide (args.length > 1) && args.all isStrJ then
      objSet (objSet fs "predicate" (.str "any_of")) "args" (.arr (args.map wrapUrlContains))
    else fs
  | _, _ => fs

/-- Second predicate rewrite: a `url_matches` whose first argument is a
string containing `"/dp/"` becomes `url_contains(["/dp/"])`. -/
def nvePathFragment (fs : List (String × JVal)) : List (String × JVal) :=
  match objGet fs "predicate", objGet fs "args" with
  | some (.str "url_matches"), some (.arr args) =>
    match args with
    | .str a0 :: _ =>
      if strContains a0 "/dp/" then
        objSet (objSet fs "predicate" (.str "url_contains")) "args" (.arr [.str "/dp/"])
      else fs
    | _ => fs
  | _, _ => fs

/-- Body of the `for v in verify` loop of `normalize_plan`: non-dicts are
skipped; otherwise the two rewrites run in source order on the same node. -/
def normalizeVerifyEntry (v : JVal) : JVal :=
  match v with
  | .obj fs => .obj (nvePathFragment (nveMultiArg fs))
  | _ => v

/-- Default intent installed by the placeholder-target rewrite. -/
def placeholderIntent : JVal := .str "first_product_link"

/-- Default goal installed by the placeholder-target rewrite. -/
def placeholderGoal : JVal := .str "Click the FIRST product link in search results"

/-- Verify list installed by the placeholder-target rewrite. -/
def placeholderVerify : JVal :=
  .arr [.obj [("predicate", .str "url_contains"), ("args", .arr [.str "/dp/"])]]

/-- Stage 1 of the `for step in steps` loop: `url` renamed to `target`
when `target` is absent (`step["target"] = step.pop("url")`). -/
def nsUrl (fs0 : List (String × JVal)) : List (String × JVal) :=
  match objGet fs0 "url" with
  | some u => if objHas fs0 "target" then fs0 else objSet (objPop fs0 "url") "target" u
  | none => fs0

/-- Stage 2: action string folded via `actionAlias`. -/
def nsAction (fs : List (String × JVal)) : List (String × JVal) :=
  match objGet fs "action" with
  | some (.str a) => objSet fs "action" (.str (actionAlias a))
  | _ => fs

/-- Stage 3: each verify entry rewritten via `normalizeVerifyEntry`. -/
def nsVerify (fs : List (String × JVal)) : List (String × JVal) :=
  match objGet fs "verify" with
  | some (.arr vs) => objSet fs "verify" (.arr (vs.map normalizeVerifyEntry))
  | _ => fs

/-- Stage 4: a string `target` containing `"product-url"` is stripped
and the step converted to a `CLICK` with default intent/goal and a
`/dp/` verify. -/
def nsPlaceholder (fs : List (String × JVal)) : List (String × JVal) :=
  match objGet fs "target" with
  | some (.str t) =>
    if strContains t "product-url" then
      let g1 := objPop fs "target"
      let g2 := objSet g1 "action" (.str "CLICK")
      let g3 := objSet g2 "intent"
        (match objGet g2 "intent" with
         | some iv => if jTruthyV iv then iv else placeholderIntent
         | none => placeholderIntent)
      let g4 := objSet g3 "goal"
        (match objGet g3 "goal" with
         | some gv => if jTruthyV gv then gv else placeholderGoal
         | none => placeholderGoal)
      objSet g4 "verify" placeholderVerify
    else fs
  | _ => fs

/-- Body of the `for step in steps` loop of `normalize_plan`: the four
in-place rewrites run in source order on the same step dict. -/
def normalizeStep (s : JVal) : JVal :=
  match s with
  | .obj fs0 => .obj (nsPlaceholder (nsVerify (nsAction (nsUrl fs0))))
  | _ => s

/-- `normalize_plan` (main.py 451-503).  Callers only reach this with a
parsed JSON object; a non-list `steps` leaves the plan unchanged. -/
def normalize_plan (p : JVal) : JVal :=
  match p with
  | .obj fs =>
    match objGet fs "steps" with
    | some (.arr steps) => .obj (objSet fs "steps" (.arr (steps.map normalizeStep)))
    | _ => p
  | _ => p

/-! ## Plan Schema Validator (`validate_plan`, main.py 639-801)

The Python validator accumulates f-string error messages; here each
message template is one constructor of `VErr`/`PKind` carrying the
interpolated data, in emission order identical to the source. -/

/-- Predicate-spec validation errors (`_validate_predicate_spec`). -/
inductive PKind where
  | notObject
  | missingPredicate
  | singleStringArg (name : String)
  | elementCountArg
  | compositeArg (name : String)
  | unsupported (name : String)
deriving DecidableEq, Repr

/-- Validation errors of `validate_plan`, one constructor per message. -/
inductive VErr where
  | planNotObject
  | taskNotString
  | notesNotStringList
  | stepsNotNonemptyList
  | stepNotObject (i : Nat)
  | stepUnsupportedKeys (i : Nat) (keys : List String)
  | idNotInt (i : Nat)
  | idNotContiguous (i : Nat) (expected : Int)
  | goalNotString (i : Nat)
  | actionNotString (i : Nat)
  | actionNotAllowed (i : Nat)
  | requiredNotBool (i : Nat)
  | stopIfTrueNotBool (i : Nat)
  | verifyNotList (i : Nat)
  | requiredNeedsVerify (i : Nat)
  | substepsNotList (i : Nat)
  | subNotObject (i k : Nat)
  | subUnsupportedKeys (i k : Nat) (keys : List String)
  | subIdNotInt (i k : Nat)
  | subIdNotStartOne (i k : Nat) (got : Int)
  | subIdNotContiguous (i k : Nat) (expected : Int)
  | subIdNotIncreasing (i k : Nat) (prev : Int)
  | subIdMissing (i k : Nat)
  | subGoalNotString (i k : Nat)
  | subActionNotString (i k : Nat)
  | subActionNotAllowed (i k : Nat)
  | subVerifyNotList (i k : Nat)
  | predicateSpec (path : String) (kind : PKind)
deriving DecidableEq, Repr

theorem sizeOf_objGet {fs : List (String × JVal)} {k : String} {v : JVal}
    (h : objGet fs k = some v) : sizeOf v < sizeOf (JVal.obj fs) := by
  induction fs with
  | nil => simp [objGet] at h
  | cons kv rest ih =>
    obtain ⟨k', v'⟩ := kv
    simp only [objGet] at h
    by_cases hk : (k' == k) = true
    · rw [if_pos hk] at h
      cases h
      simp
      omega
    · rw [if_neg hk] at h
      have := ih h
      simp at this ⊢
      omega

mutual

/-- `_validate_predicate_spec` (main.py 643-669): checks one predicate
spec's arity/types, recursing into `any_of`/`all_of` children. -/
def _validate_predicate_spec (spec : JVal) (path : String) : List VErr :=
  match spec with
  | .obj fs =>
    match objGet fs "predicate" with
    | some (.str predicate) =>
      if predicate == "url_contains" || predicate == "url_matches"
          || predicate == "exists" || predicate == "not_exists" then
        match (objGet fs "args").getD (.arr []) with
        | .arr [.str _] => []
        | _ => [.predicateSpec path (.singleStringArg predicate)]
      else if predicate == "element_count" then
        match (objGet fs "args").getD (.arr []) with
        | .arr (.str _ :: _) => []
        | _ => [.predicateSpec path .elementCountArg]
      else if predicate == "any_of" || predicate == "all_of" then
        match hargs : objGet fs "args" with
        | some (.arr (s0 :: subs)) => validateSpecArgs (s0 :: subs) path 0
        | _ => [.predicateSpec path (.compositeArg predicate)]
      else [.predicateSpec path (.unsupported predicate)]
    | _ => [.predicateSpec path .missingPredicate]
  | _ => [.predicateSpec path .notObject]
termination_by sizeOf spec
decreasing_by
  have h1 := sizeOf_objGet hargs
  simp at h1 ⊢
  omega

/-- The `for i, sub in enumerate(args)` recursion of
`_validate_predicate_spec` for composite predicates. -/
def validateSpecArgs (subs : List JVal) (path : String) (i : Nat) : List VErr :=
  match subs with
  | [] => []
  | s :: rest =>
    _validate_predicate_spec s (path ++ ".args[" ++ toString i ++ "]")
      ++ validateSpecArgs rest path (i + 1)
termination_by sizeOf subs
decreasing_by
  all_goals simp
  all_goals omega

end

/-- `_is_str_list` (main.py 639-640). -/
def isStrList : JVal → Bool
  | .arr l => l.all isStrJ
  | _ => false

/-- Membership in `allowed_actions = {"NAVIGATE", "CLICK", "TYPE_AND_SUBMIT"}`
after `action.upper()`. -/
def allowedActionStr (a : String) : Bool :=
  pyUpper a == "NAVIGATE" || pyUpper a == "CLICK" || pyUpper a == "TYPE_AND_SUBMIT"

/-- Membership in `allowed_step_keys`. -/
def allowedStepKey (k : String) : Bool :=
  k == "id" || k == "goal" || k == "action" || k == "target" || k == "intent"
    || k == "input" || k == "verify" || k == "required" || k == "stop_if_true"
    || k == "optional_substeps"

/-- `sorted(set(step.keys()) - allowed_step_keys)`. -/
def extraKeys (fs : List (String × JVal)) : List String :=
  (((fs.map Prod.fst).filter (fun k => !allowedStepKey k)).dedup).mergeSort
    (fun a b => decide (a ≤ b))

/-- Errors of the `for j, v in enumerate(verify)` loop. -/
def validateVerifyList (vs : List JVal) (base : String) (j : Nat) : List VErr :=
  match vs with
  | [] => []
  | v :: rest =>
    _validate_predicate_spec v (base ++ ".verify[" ++ toString j ++ "]")
      ++ validateVerifyList rest base (j + 1)

/-- Errors of the `for k, sub in enumerate(subs)` loop (main.py 744-800),
threading `sub_expected_id` and `last_sub_id` exactly as the source does. -/
def validateSubsteps (i : Nat) (k : Nat) (subExpected : Option Int)
    (lastSubId : Option Int) : List JVal → List VErr
  | [] => []
  | sub :: rest =>
    match sub with
    | .obj sfs =>
      let eKeys : List VErr :=
        if extraKeys sfs ≠ [] then [.subUnsupportedKeys i k (extraKeys sfs)] else []
      let idPart : List VErr × Option Int × Option Int :=
        match objGet sfs "id" with
        | some (.int n) =>
          let e1 : List VErr :=
            match subExpected with
            | none => if n ≠ 1 then [.subIdNotStartOne i k n] else []
            | some _ => []
          let se : Int := subExpected.getD 1
          let e2 : List VErr := if n ≠ se then [.subIdNotContiguous i k se] else []
          let e3 : List VErr :=
            match lastSubId with
            | some prev => if n ≤ prev then [.subIdNotIncreasing i k prev] else []
            | none => []
          (e1 ++ e2 ++ e3, some (se + 1), some n)
        | some _ => ([.subIdNotInt i k], subExpected, lastSubId)
        | none =>
          match lastSubId with
          | some _ => ([.subIdMissing i k], subExpected, lastSubId)
          | none => ([], subExpected, lastSubId)
      let eGoal : List VErr :=
        match objGet sfs "goal" with
        | some (.str _) => []
        | _ => [.subGoalNotString i k]
      let eAction : List VErr :=
        match objGet sfs "action" with
        | some (.str a) => if allowedActionStr a then [] else [.subActionNotAllowed i k]
        | _ => [.subActionNotString i k]
      let eVerify : List VErr :=
        match objGet sfs "verify" with
        | none => []
        | some (.arr vs) =>
          validateVerifyList vs
            ("plan.steps[" ++ toString i ++ "].optional_substeps[" ++ toString k ++ "]") 0
        | some _ => [.subVerifyNotList i k]
      eKeys ++ idPart.1 ++ eGoal ++ eAction ++ eVerify
        ++ validateSubsteps i (k + 1) idPart.2.1 idPart.2.2 rest
    | _ => .subNotObject i k :: validateSubsteps i (k + 1) subExpected lastSubId rest

/-- Errors of one top-level step plus the updated `expected_id`
(main.py 701-800). -/
def validateStep (i : Nat) (expected : Int) (step : JVal) : List VErr × Int :=
  match step with
  | .obj fs =>
    let eKeys : List VErr :=
      if extraKeys fs ≠ [] then [.stepUnsupportedKeys i (extraKeys fs)] else []
    let idPart : List VErr × Int :=
      match objGet fs "id" with
      | some (.int n) =>
        ((if n ≠ expected then [.idNotContiguous i expected] else []), expected + 1)
      | _ => ([.idNotInt i], expected)
    let eGoal : List VErr :=
      match objGet fs "goal" with
      | some (.str _) => []
      | _ => [.goalNotString i]
    let eAction : List VErr :=
      match objGet fs "action" with
      | some (.str a) => if allowedActionStr a then [] else [.actionNotAllowed i]
      | _ => [.actionNotString i]
    let eReq : List VErr :=
      if objHas fs "required" then
        match objGet fs "required" with
        | some (.bool _) => []
        | _ => [.requiredNotBool i]
      else []
    let eStop : List VErr :=
      if objHas fs "stop_if_true" then
        match objGet fs "stop_if_true" with
        | some (.bool _) => []
        | _ => [.stopIfTrueNotBool i]
      else []
    let eVerify : List VErr :=
      match objGet fs "verify" with
      | none => []
      | some (.arr vs) => validateVerifyList vs ("plan.steps[" ++ toString i ++ "]") 0
      | some _ => [.verifyNotList i]
    let eReqVer : List VErr :=
      if jTruthy (objGet fs "required") && !jTruthy (objGet fs "verify") then
        [.requiredNeedsVerify i]
      else []
    let eSubs : List VErr :=
      match objGet fs "optional_substeps" with
      | none => []
      | some (.arr subs) => validateSubsteps i 0 none none subs
      | some _ => [.substepsNotList i]
    (eKeys ++ idPart.1 ++ eGoal ++ eAction ++ eReq ++ eStop ++ eVerify ++ eReqVer ++ eSubs,
      idPart.2)
  | _ => ([.stepNotObject i], expected)

/-- The `for i, step in enumerate(steps)` loop, threading `expected_id`. -/
def validateSteps (i : Nat) (expected : Int) : List JVal → List VErr
  | [] => []
  | st :: rest =>
    (validateStep i expected st).1 ++ validateSteps (i + 1) (validateStep i expected st).2 rest

/-- `validate_plan` (main.py 672-801): exhaustive schema check; an empty
result means the plan is valid.  A non-list or empty `steps` returns early
with the task/notes errors collected so far, as in the source. -/
def validate_plan (plan : JVal) : List VErr :=
  match plan with
  | .obj fs =>
    let eTask : List VErr :=
      match objGet fs "task" with
      | some (.str _) => []
      | _ => [.taskNotString]
    let eNotes : List VErr :=
      if objHas fs "notes" && !isStrList ((objGet fs "notes").getD .null) then
        [.notesNotStringList]
      else []
    match objGet fs "steps" with
    | some (.arr (s0 :: rest)) => eTask ++ eNotes ++ validateSteps 0 1 (s0 :: rest)
    | _ => eTask ++ eNotes ++ [.stepsNotNonemptyList]
  | _ => [.planNotObject]

/-! ## Observations and runtime predicates

`Observation` abstracts the Action Backend state (spec section 3): the
current URL plus the visible interactive elements of the last snapshot. -/

/-- A snapshotted element (`id, role, text, href`). -/
structure Element where
  id : Nat
  role : String
  text : String
  href : String

/-- An observation: `url` plus element list. -/
structure Obs where
  url : String
  elements : List Element

/-- Modelled from the spec (section 4.1): the small selector grammar of the
SDK predicate evaluator — `role=`, `text~'...'` substring, `id=`,
`href~'...'` substring; anything else matches nothing. -/
def matchesSelector (sel : String) (e : Element) : Bool :=
  if strStartsWith sel "role=" then e.role == strDrop sel 5
  else if strStartsWith sel "text~\x27" && strEndsWith sel "\x27" then
    strContains e.text (strSlice sel 6 (sel.length - 1))
  else if strStartsWith sel "id=" then toString e.id == strDrop sel 3
  else if strStartsWith sel "href~\x27" && strEndsWith sel "\x27" then
    strContains e.href (strSlice sel 6 (sel.length - 1))
  else false

/-- Modelled from the spec: runtime predicate objects built by the SDK
combinators imported from `sentience.verification` (`url_contains`,
`url_matches`, `exists`, `not_exists`, `element_count`, `any_of`, `all_of`,
`custom`).  Construction never evaluates; arguments are stored as given
(the combinators are closure builders, spec section 9). -/
inductive VPred where
  | urlContains (needle : JVal)
  | urlMatches (pattern : JVal)
  | existsSel (selector : JVal)
  | notExistsSel (selector : JVal)
  | elementCount (selector minCount maxCount : JVal)
  | anyOf (children : List VPred)
  | allOf (children : List VPred)
  | custom (f : Obs → Bool)

mutual

/-- Modelled from the spec (section 4.1 table): evaluate a predicate
against an observation.  `rx` is the regex matcher used by `url_matches`
(regex semantics are external to this development).  Composite predicates
short-circuit; an argument of the wrong runtime type evaluates to
`false` (such nodes are excluded by validation). -/
def evalPred (rx : String → String → Bool) : VPred → Obs → Bool
  | .urlContains (.str needle), o => strContains o.url needle
  | .urlContains _, _ => false
  | .urlMatches (.str pat), o => rx pat o.url
  | .urlMatches _, _ => false
  | .existsSel (.str sel), o => o.elements.any (matchesSelector sel)
  | .existsSel _, _ => false
  | .notExistsSel (.str sel), o => !o.elements.any (matchesSelector sel)
  | .notExistsSel _, _ => false
  | .elementCount (.str sel) mn mx, o =>
    let c : Int := ((o.elements.filter (matchesSelector sel)).length : Int)
    (match mn with
     | .int m => decide (m ≤ c)
     | _ => false)
    && (match mx with
        | .null => true
        | .int m => decide (c ≤ m)
        | _ => false)
  | .elementCount _ _ _, _ => false
  | .anyOf ps, o => evalPredAny rx ps o
  | .allOf ps, o => evalPredAll rx ps o
  | .custom f, o => f o

/-- `any_of`: true iff any child is true (short-circuits at first true). -/
def evalPredAny (rx : String → String → Bool) : List VPred → Obs → Bool
  | [], _ => false
  | p :: rest, o => evalPred rx p o || evalPredAny rx rest o

/-- `all_of`: true iff all children are true (short-circuits at first false). -/
def evalPredAll (rx : String → String → Bool) : List VPred → Obs → Bool
  | [], _ => true
  | p :: rest, o => evalPred rx p o && evalPredAll rx rest o

end

/-! ## `build_predicate` (main.py 590-617) -/

/-- Python `xs[i]` on a JSON value: list indexing, string indexing (a
one-character string), otherwise a `TypeError`; out of range is an
`IndexError`. -/
def pyIndex (v : JVal) (i : Nat) : Except String JVal :=
  match v with
  | .arr l =>
    match l.get? i with
    | some x => .ok x
    | none => .error "IndexError: list index out of range"
  | .str s =>
    match s.toList.get? i with
    | some c => .ok (.str (String.mk [c]))
    | none => .error "IndexError: string index out of range"
  | _ => .error "TypeError: object is not subscriptable"

/-- Python `len(xs)` on a JSON value. -/
def pyLen (v : JVal) : Except String Nat :=
  match v with
  | .arr l => .ok l.length
  | .str s => .ok s.toList.length
  | .obj fs => .ok fs.length
  | _ => .error "TypeError: object has no len"

mutual

/-- `build_predicate` (main.py 590-617): turn one predicate spec into a
runtime predicate.  Failure modes of the source are modelled as errors:
a non-dict spec (`spec.get` raises), a missing argument (`args[0]`
raises), iterating a non-list for composites, and the final
`ValueError("Unsupported predicate: ...")`. -/
def build_predicate (spec : JVal) : Except String VPred :=
  match spec with
  | .obj fs =>
    match objGet fs "predicate" with
    | some (.str "url_contains") => do
      let a0 ← pyIndex ((objGet fs "args").getD (.arr [])) 0
      .ok (.urlContains a0)
    | some (.str "url_matches") => do
      let pat ← pyIndex ((objGet fs "args").getD (.arr [])) 0
      match pat with
      | .str p =>
        if strContains p "/dp/" && !strStartsWith p "http" then
          .ok (.urlContains (.str "/dp/"))
        else .ok (.urlMatches (.str p))
      | _ => .ok (.urlMatches pat)
    | some (.str "exists") => do
      let a0 ← pyIndex ((objGet fs "args").getD (.arr [])) 0
      .ok (.existsSel a0)
    | some (.str "not_exists") => do
      let a0 ← pyIndex ((objGet fs "args").getD (.arr [])) 0
      .ok (.notExistsSel a0)
    | some (.str "element_count") => do
      let args := (objGet fs "args").getD (.arr [])
      let selector ← pyIndex args 0
      let len ← pyLen args
      let mn ← if len > 1 then pyIndex args 1 else .ok (.int 0)
      let mx ← if len > 2 then pyIndex args 2 else .ok .null
      .ok (.elementCount selector mn mx)
    | some (.str "any_of") =>
      match hargs : objGet fs "args" with
      | some (.arr l) => do
        let ps ← buildPredList l
        .ok (.anyOf ps)
      | some _ => .error "TypeError: argument is not iterable"
      | none => .ok (.anyOf [])
    | some (.str "all_of") =>
      match hargs : objGet fs "args" with
      | some (.arr l) => do
        let ps ← buildPredList l
        .ok (.allOf ps)
      | some _ => .error "TypeError: argument is not iterable"
      | none => .ok (.allOf [])
    | some (.str other) => .error ("Unsupported predicate: " ++ other)
    | some _ => .error "Unsupported predicate: non-string name"
    | none => .error "Unsupported predicate: None"
  | _ => .error "AttributeError: spec has no attribute get"
termination_by sizeOf spec
decreasing_by
  all_goals
    have h1 := sizeOf_objGet hargs
    simp at h1 ⊢
    omega

/-- The generator `(build_predicate(p) for p in args)`. -/
def buildPredList (subs : List JVal) : Except String (List VPred) :=
  match subs with
  | [] => .ok []
  | s :: rest => do
    let p ← build_predicate s
    let ps ← buildPredList rest
    .ok (p :: ps)
termination_by sizeOf subs
decreasing_by
  all_goals simp
  all_goals omega

end

/-! ## Action Backend and runtime (external interfaces, spec section 6)

The Action Backend and SDK runtime are external collaborators.  Each
operation is a state transformer over an abstract world `W` that may fail
(`Except String`), matching "all are assumed blocking and to raise a
backend-specific error on hard failure". -/

/-- The step-executor monad: explicit world state over fallible calls. -/
abbrev ExecM (W : Type) := StateT W (Except String)

/-- Run a world-only backend call. -/
def liftW {W : Type} (f : W → Except String W) : ExecM W Unit :=
  fun w => (f w).map (fun w' => ((), w'))

/-- Run a backend call that also returns a value. -/
def liftWA {W : Type} {α : Type} (f : W → Except String (W × α)) : ExecM W α :=
  fun w => (f w).map (fun p => (p.2, p.1))

/-- Lift a pure fallible computation. -/
def liftE {W : Type} {α : Type} (x : Except String α) : ExecM W α :=
  fun w => x.map (fun a => (a, w))

/-- The Action Backend plus the runtime snapshot/observation interface
used by `run_executor_step` (browser.goto, page.wait_for_load_state,
runtime.snapshot, click_async, type_with_stealth, press_async,
page.evaluate, page.screenshot, page.url, and the runtime's current
observation used by one-shot assertions). -/
structure Backend (W : Type) where
  goto : String → W → Except String W
  waitLoadDom : W → Except String W
  waitNetworkIdle : W → Except String W
  waitTimeout : Nat → W → Except String W
  snapshot : W → Except String (W × Option Obs)
  click : Nat → W → Except String W
  typeText : String → W → Except String W
  press : String → W → Except String W
  evalActiveValue : W → Except String (W × String)
  evalSetValue : String → W → Except String W
  screenshot : W → Except String (W × String)
  currentUrl : W → String
  current : W → Obs

/-- Modelled from the spec (sections 4.5 and 5): the SDK's
`runtime.check(pred).eventually(...)` poll loop, capped by its
snapshot-attempt budget; it re-snapshots and re-evaluates until the
predicate holds or the budget is exhausted, and never lets an exception
escape (a failed or empty snapshot consumes an attempt). -/
def evEventually {W : Type} (snap : W → Except String (W × Option Obs))
    (p : Obs → Bool) : Nat → W → W × Bool
  | 0, w => (w, false)
  | n + 1, w =>
    match snap w with
    | .error _ => evEventually snap p n w
    | .ok (w', none) => evEventually snap p n w'
    | .ok (w', some o) => if p o then (w', true) else evEventually snap p n w'

/-- `runtime.check(pred, ...).eventually(...)` in the executor monad. -/
def checkEventually {W : Type} (B : Backend W) (rx : String → String → Bool)
    (p : VPred) (attempts : Nat) : ExecM W Bool :=
  fun w =>
    let r := evEventually B.snapshot (evalPred rx p) attempts w
    .ok (r.2, r.1)

/-- Modelled from the spec (section 4.5): `runtime.assert_(pred, ...)`
evaluates the predicate once against the runtime's current observation
without blocking and returns that boolean (the sibling demos in this
repository branch on its return value, e.g. `if not url_ok: return`). -/
def assertOnce {W : Type} (B : Backend W) (rx : String → String → Bool)
    (p : VPred) : ExecM W Bool :=
  fun w => .ok (evalPred rx p (B.current w), w)

/-! ## `apply_verifications` (main.py 620-636) -/

/-- The `for idx, v in enumerate(verify, start=1)` loop, with the world
state passed explicitly: each spec is built (a build failure propagates,
as in the source), then polled when the step is `required` (8 snapshot
attempts: `timeout_s=8.0, poll_s=0.5, max_snapshot_attempts=8`) or
evaluated once against the current observation otherwise, and the
outcomes are conjoined into `ok_all`. -/
def applyVerList {W : Type} (rx : String → String → Bool) (B : Backend W) :
    List JVal → Bool → W → Except String (Bool × W)
  | [], _, w => .ok (true, w)
  | v :: rest, required, w =>
    match build_predicate v with
    | .error e => .error e
    | .ok p =>
      if required then
        match applyVerList rx B rest required
            (evEventually B.snapshot (evalPred rx p) 8 w).1 with
        | .error e => .error e
        | .ok (restOk, w') =>
          .ok ((evEventually B.snapshot (evalPred rx p) 8 w).2 && restOk, w')
      else
        match applyVerList rx B rest required w with
        | .error e => .error e
        | .ok (restOk, w') => .ok (evalPred rx p (B.current w) && restOk, w')

/-- `apply_verifications` (main.py 620-636): `if not verify: return True`,
then the per-predicate loop; returns the conjunction `ok_all`. -/
def apply_verifications {W : Type} (rx : String → String → Bool) (B : Backend W)
    (verify : JVal) (required : Bool) : ExecM W Bool :=
  if !jTruthyV verify then fun w => .ok (true, w)
  else
    match verify with
    | .arr vs => fun w => applyVerList rx B vs required w
    | _ => fun _ => .error "TypeError: verify is not iterable"

/-! ## `parse_click_id` (main.py 183-185)

The regex `CLICK\s*\(\s*(\d+)\s*\)` (case-insensitive search): scan for
the leftmost occurrence. -/

/-- Digits to number, as matched by `(\d+)`. -/
def digitsToNat (ds : List Char) : Nat :=
  ds.foldl (fun a c => a * 10 + (c.toNat - 48)) 0

/-- Try to match `CLICK\s*\(\s*(\d+)\s*\)` at the head of the list. -/
def clickMatchAt (l : List Char) : Option Nat :=
  if charsPrefix ['c', 'l', 'i', 'c', 'k'] (l.map Char.toLower) then
    let r1 := (l.drop 5).dropWhile isWs
    match r1 with
    | '(' :: r2 =>
      let r3 := r2.dropWhile isWs
      let ds := r3.takeWhile Char.isDigit
      if ds.isEmpty then none
      else
        match (r3.dropWhile Char.isDigit).dropWhile isWs with
        | ')' :: _ => some (digitsToNat ds)
        | _ => none
    | _ => none
  else none

/-- Scan left to right for the first match. -/
def clickScan : List Char → Option Nat
  | [] => none
  | c :: rest =>
    match clickMatchAt (c :: rest) with
    | some n => some n
    | none => clickScan rest

/-- `parse_click_id` (main.py 183-185). -/
def parse_click_id (s : String) : Option Nat := clickScan s.toList

/-! ## `is_search_results_url` (main.py 506-516) -/

def DEFAULT_PLAN_URL : String := "https://www.amazon.com"

/-- `is_search_results_url(url, query)`. -/
def is_search_results_url (url query : String) : Bool :=
  let current := pyLower url
  let keywordInUrl := strContains current ("k=" ++ pyLower query)
  let searchUrlPattern := strContains current "/s" || strContains current "s?k="
    || strContains current "/s/"
  let notProductPage := !strContains current "/dp/" && !strContains current "/gp/product/"
  let notHomepage := !(strEndsWith current "amazon.com/" || strEndsWith current "amazon.com"
    || strEndsWith (rstripSlash current) "amazon.com")
  (keywordInUrl || searchUrlPattern) && notProductPage && notHomepage

/-! ## `run_executor_step` (main.py 900-1128) -/

/-- Rough f-string rendering of a JSON scalar (used only where the source
interpolates plan fields into oracle prompts; prompts are opaque to the
oracles, which are parameters). -/
def jDisplay : JVal → String
  | .str s => s
  | .int n => toString n
  | .bool b => if b then "True" else "False"
  | .null => "None"
  | .arr _ => ""
  | .obj _ => ""

/-- The executor's environment: backend, regex matcher, the Executor
Oracle (`executor.generate` after `build_executor_prompt(goal, intent,
compact)` — prompt text is plumbing, so the oracle is a function of the
prompt inputs), the optional Vision Oracle (a function of goal, reason,
compact list and screenshot as in `vision_select_click_id`), the
`SentienceContext` snapshot formatter, and `SEARCH_QUERY`. -/
structure ExecEnv (W : Type) where
  B : Backend W
  rx : String → String → Bool
  execOracle : String → Option String → String → String
  visionOracle : Option (String → String → String → String → String)
  fmt : Obs → String
  searchQuery : String

/-- `vision_select_click_id` (main.py 563-587): disabled without a vision
LLM; otherwise takes a screenshot (a backend call that may raise), asks
the Vision Oracle, and parses its `CLICK(<id>)` answer. -/
def vision_select_click_id {W : Type} (env : ExecEnv W)
    (goal compact reason : String) : ExecM W (Option Nat × String) :=
  match env.visionOracle with
  | none => pure (none, "vision_disabled")
  | some vo => do
    let img ← liftWA env.B.screenshot
    let content := vo goal reason compact img
    pure (parse_click_id content, pyStrip content)

/-- The `custom(_has_product_links)` closure (main.py 1017-1025). -/
def hasProductLinksVPred : VPred :=
  .custom (fun o => o.elements.any (fun e =>
    strContains e.href "/dp/" || strContains e.href "/gp/product/"))

/-- The `search_results_links_present` check (main.py 989-995). -/
def searchLinksVPred : VPred :=
  .anyOf [.elementCount (.str "role=link[href*=\x27/dp/\x27]") (.int 3) .null,
          .elementCount (.str "role=link[href*=\x27/gp/product/\x27]") (.int 3) .null]

/-- The `search_box_present_alt` check (main.py 1087-1095). -/
def altSearchBoxVPred : VPred :=
  .anyOf [.existsSel (.str "role=searchbox"), .existsSel (.str "role=textbox"),
          .existsSel (.str "role=combobox")]

/-- `run_executor_step` (main.py 900-1128): dispatch one step by action
kind against the Action Backend, then apply verification.  Logging,
compact-prompt printing and JSONL feedback records are I/O-only and
dropped; the ignored `runtime.assert_(exists("role=button"), ...)` at
main.py 1048 is likewise result-ignored in the source and dropped.  Note
that backend calls are *not* wrapped in try/except except for the two
places the source wraps (`page.evaluate` of the active value and the
`networkidle` wait, plus the value-set evaluate), so backend errors
propagate out of this function. -/
def run_executor_step {W : Type} (env : ExecEnv W) (step : JVal) :
    ExecM W (Bool × String) := do
  let goal : String :=
    match step.get "goal" with
    | some v => jDisplay v
    | none => "Execute step"
  let action : String ←
    match step.get "action" with
    | some (.str a) => pure (pyUpper a)
    | none => pure ""
    | some _ => throw "AttributeError: action has no attribute upper"
  let intent := step.get "intent"
  let required := jTruthy (step.get "required")
  let verify := (step.get "verify").getD (.arr [])
  if action == "NAVIGATE" then
    let turl : String ←
      match (step.get "target").getD (.str DEFAULT_PLAN_URL) with
      | .str u => pure u
      | _ => throw "TypeError: goto target must be a string"
    liftW (env.B.goto turl)
    liftW env.B.waitLoadDom
    let _ ← liftWA env.B.snapshot
    let ok ← apply_verifications env.rx env.B verify required
    pure (ok, "navigated")
  else if action == "TYPE_AND_SUBMIT" then
    let preSnap ← liftWA env.B.snapshot
    (match preSnap with
     | some pre => do
       let preCompact := env.fmt pre
       let focusResp := env.execOracle
         "Click the search input box (role=searchbox or role=textbox) before typing."
         (some "search_box") preCompact
       match parse_click_id focusResp with
       | some fid => do
         liftW (env.B.click fid)
         liftW (env.B.waitTimeout 400)
       | none => pure ()
     | none => pure ())
    let text : String ←
      match step.get "input" with
      | some (.str t) => pure t
      | none => pure env.searchQuery
      | some _ => throw "TypeError: input is not iterable"
    liftW (env.B.typeText text)
    let currentValue ← fun w =>
      match env.B.evalActiveValue w with
      | .ok (w', v) => .ok (v, w')
      | .error _ => .ok ("", w)
    (if currentValue == "" || !strContains (pyLower currentValue) (pyLower text) then do
      (fun w =>
        match (env.B.evalSetValue text w).bind (env.B.waitTimeout 300) with
        | .ok w2 => .ok ((), w2)
        | .error _ => .ok ((), w))
      liftW (env.B.typeText text)
     else pure ())
    liftW (env.B.press "Enter")
    liftW env.B.waitLoadDom
    (fun w =>
      match env.B.waitNetworkIdle w with
      | .ok w' => .ok ((), w')
      | .error _ => .ok ((), w))
    liftW (env.B.waitTimeout 1500)
    let currentUrl ← fun w => .ok (env.B.currentUrl w, w)
    if !is_search_results_url currentUrl env.searchQuery then
      pure (false, "search_results_not_verified")
    else do
      let _ ← checkEventually env.B env.rx searchLinksVPred 10
      let _ ← liftWA env.B.snapshot
      let ok ← apply_verifications env.rx env.B verify required
      pure (ok, "typed_and_submitted")
  else if action == "CLICK" then do
    let intentLower : String ←
      match intent with
      | none => pure ""
      | some .null => pure ""
      | some (.str s) => pure (pyLower s)
      | some v =>
        if jTruthyV v then throw "AttributeError: intent has no attribute lower"
        else pure ""
    if intentLower == "first_product_link" || intentLower == "first_search_result" then do
      let linksOk ← checkEventually env.B env.rx hasProductLinksVPred 12
      if !linksOk then return (false, "product_links_not_found")
    let snapOpt ← liftWA env.B.snapshot
    match snapOpt with
    | none => pure (false, "snapshot_missing")
    | some snap => do
      let compact := env.fmt snap
      let intentStr : Option String :=
        match intent with
        | some (.str s) => some s
        | _ => none
      let resp := env.execOracle goal intentStr compact
      let clickIdResolved : Option Nat ←
        match parse_click_id resp with
        | some cid => pure (some cid)
        | none => do
          let vres ← vision_select_click_id env goal compact "executor_missing_click_id"
          pure vres.1
      match clickIdResolved with
      | none => pure (false, "llm_click_id_missing")
      | some cid => do
        liftW (env.B.click cid)
        liftW (env.B.waitTimeout 1200)
        let snapAfter ← liftWA env.B.snapshot
        let compactAfter := snapAfter.map env.fmt
        let ok ← apply_verifications env.rx env.B verify required
        if !ok && required && intentLower == "search_box" then do
          let altOk ← checkEventually env.B env.rx altSearchBoxVPred 3
          if altOk then return (true, "search_box_detected_alt")
        if !ok && required then do
          let vres ← vision_select_click_id env goal (compactAfter.getD compact)
            "verification_failed"
          match vres.1 with
          | some vid => do
            liftW (env.B.click vid)
            liftW (env.B.waitTimeout 1200)
            let _ ← liftWA env.B.snapshot
            let ok2 ← apply_verifications env.rx env.B verify required
            if ok2 then return (true, "vision_override_pass")
            else return (ok2, "clicked")
          | none => pure ()
        pure (ok, "clicked")
  else
    pure (false, "unsupported_action:" ++ action)

/-- The fixed drawer-visibility predicate of
`maybe_run_optional_substeps` (main.py 1146-1154). -/
def drawerVisibleVPred : VPred :=
  .anyOf [.existsSel (.str "text~\x27Add to Your Order\x27"),
          .existsSel (.str "text~\x27No thanks\x27"),
          .existsSel (.str "text~\x27Add protection\x27")]

/-- The `for sub in optional` loop of `maybe_run_optional_substeps`: each
substep runs through the Step Executor; its `(success, note)` result is
discarded (bound to nothing in the source). -/
def runSubstepList {W : Type} (env : ExecEnv W) : List JVal → ExecM W Unit
  | [] => pure ()
  | s :: rest => do
    let _ ← run_executor_step env s
    runSubstepList env rest

/-- `maybe_run_optional_substeps` (main.py 1131-1168): skip unless the
drawer-visibility predicate becomes true within a short bounded poll
(4 snapshot attempts); substep results are never returned. -/
def maybe_run_optional_substeps {W : Type} (env : ExecEnv W) (step : JVal) :
    ExecM W Unit := do
  let optional : JVal :=
    match step.get "optional_substeps" with
    | some v => if jTruthyV v then v else .arr []
    | none => .arr []
  match optional with
  | .arr [] => pure ()
  | .arr subs => do
    let visible ← checkEventually env.B env.rx drawerVisibleVPred 4
    if !visible then pure ()
    else runSubstepList env subs
  | _ => throw "TypeError: optional_substeps is not iterable"

/-! ## Plan Parser with bounded retry (main.py 302-321 and 386-420)

The Planning Oracle is a parameter giving the raw completion text for
each attempt (attempt numbers select the lenient/strict prompt, and for
replans the retained schema errors are an argument, since
`build_replan_prompt` receives `schema_errors=last_errors or None`).
JSON extraction (`extract_json`: fenced block else first `{...}` span,
then `json.loads`) is abstracted as `extract`; an attempt whose raw text
yields no JSON object — including non-object JSON, on which
`normalize_plan`'s `plan.get` raises inside the `try` — falls through to
the next attempt. -/

/-- The `for attempt in range(1, max_attempts + 1)` loop of
`extract_plan_with_retry`, threading `last_output`.  On success the
normalized plan and the raw text are returned; NO validation happens
here.  Exhaustion raises, carrying the last raw output. -/
def extractPlanLoop (planner : Nat → String) (extract : String → Option JVal)
    (maxAttempts : Nat) : Nat → String → Except String (JVal × String)
  | attempt, lastOutput =>
    if h : attempt > maxAttempts then .error lastOutput
    else
      match extract (planner attempt) with
      | some (.obj fs) => .ok (normalize_plan (.obj fs), planner attempt)
      | _ => extractPlanLoop planner extract maxAttempts (attempt + 1) (planner attempt)
termination_by attempt => maxAttempts + 1 - attempt
decreasing_by omega

/-- `extract_plan_with_retry` (main.py 302-321). -/
def extract_plan_with_retry (planner : Nat → String) (extract : String → Option JVal)
    (maxAttempts : Nat) : Except String (JVal × String) :=
  extractPlanLoop planner extract maxAttempts 1 ""

/-- The loop of `extract_replan_with_retry`, threading `last_output` and
`last_errors` (`none` models the initial empty string, passed to the
prompt builder as `last_errors or None`).  Each successful extraction is
normalized then validated; remaining validation errors are retained for
the next attempt's corrective feedback.  Exhaustion raises, carrying the
last error list and last raw output. -/
def extractReplanLoop (planner : Nat → Option (List VErr) → String)
    (extract : String → Option JVal) (maxAttempts : Nat) :
    Nat → String → Option (List VErr) → Except (Option (List VErr) × String) (JVal × String)
  | attempt, lastOutput, lastErrors =>
    if h : attempt > maxAttempts then .error (lastErrors, lastOutput)
    else
      match extract (planner attempt lastErrors) with
      | some (.obj fs) =>
        if (validate_plan (normalize_plan (.obj fs))).isEmpty then
          .ok (normalize_plan (.obj fs), planner attempt lastErrors)
        else
          extractReplanLoop planner extract maxAttempts (attempt + 1)
            (planner attempt lastErrors) (some (validate_plan (normalize_plan (.obj fs))))
      | _ =>
        extractReplanLoop planner extract maxAttempts (attempt + 1)
          (planner attempt lastErrors) lastErrors
termination_by attempt => maxAttempts + 1 - attempt
decreasing_by
  all_goals omega

/-- `extract_replan_with_retry` (main.py 386-420). -/
def extract_replan_with_retry (planner : Nat → Option (List VErr) → String)
    (extract : String → Option JVal) (maxAttempts : Nat) :
    Except (Option (List VErr) × String) (JVal × String) :=
  extractReplanLoop planner extract maxAttempts 1 "" none

/-! ## Replanning Controller (the `while step_index < len(steps)` loop of
`main`, main.py 1284-1408)

The controller's decisions depend only on each executed step's
`(success, required, stop_if_true, id)`; the step executor is abstracted
as `exec : plan-version → step-index → success` and the optional-substep
runner as `subExec : plan-version → step-index → substep results` (its
results are discarded by the source).  Replanning
(`extract_replan_with_retry` + the `ensure_minimum_plan` guardrail +
"Replan returned no steps") is abstracted as
`replan : replan-number → parsed step list`, `none` modelling a raised
`RuntimeError` during replan parsing. -/

/-- The controller's view of one plan step. -/
structure CtrlStep where
  id : Nat
  required : Bool
  stopIfTrue : Bool
deriving DecidableEq, Repr

/-- Controller state: current step list, `step_index`, `replans_used`.
`replansUsed` doubles as the plan version (0 = initial plan). -/
structure CtrlState where
  steps : List CtrlStep
  stepIndex : Nat
  replansUsed : Nat
deriving DecidableEq, Repr

/-- Terminal outcomes of the loop: `done` (loop completes or a
`stop_if_true` step succeeds; `all_passed` stays true), budget
exhaustion (`all_passed = False; break`), or a replan parse failure
(the raised `RuntimeError("Failed to parse replanned JSON")`). -/
inductive CtrlOutcome where
  | done (replansUsed : Nat)
  | abortedBudget (replansUsed : Nat)
  | abortedParse (replansUsed : Nat)
deriving DecidableEq, Repr

/-- The replans recorded at termination. -/
def CtrlOutcome.replans : CtrlOutcome → Nat
  | .done r => r
  | .abortedBudget r => r
  | .abortedParse r => r

/-- One record of `summary["steps"]` (step id and success). -/
structure StepRec where
  id : Nat
  success : Bool
deriving DecidableEq, Repr

/-- One iteration of the controller loop (the body of
`while step_index < len(steps)`): execute the step, then either replan
(on a required failure within budget), abort (budget exhausted or replan
parse failure), stop early (`stop_if_true and ok`), finish, or advance. -/
def ctrlIter (exec : Nat → Nat → Bool) (replan : Nat → Option (List CtrlStep))
    (maxReplans : Nat) (s : CtrlState) : CtrlOutcome ⊕ CtrlState :=
  if h : s.stepIndex < s.steps.length then
    let step := s.steps.get ⟨s.stepIndex, h⟩
    let ok := exec s.replansUsed s.stepIndex
    if !ok && step.required then
      if s.replansUsed < maxReplans then
        match replan (s.replansUsed + 1) with
        | none => .inl (.abortedParse (s.replansUsed + 1))
        | some [] => .inl (.abortedParse (s.replansUsed + 1))
        | some (st :: sts) => .inr ⟨st :: sts, 0, s.replansUsed + 1⟩
      else .inl (.abortedBudget s.replansUsed)
    else if step.stopIfTrue && ok then .inl (.done s.replansUsed)
    else .inr ⟨s.steps, s.stepIndex + 1, s.replansUsed⟩
  else .inl (.done s.replansUsed)

/-- The whole controller loop.  Besides the outcome it returns the
ordered `summary["steps"]` records (id and success of every executed
top-level step) and the trace of optional-substep results observed along
the way (the latter is write-only in the source: `maybe_run_optional_substeps`
returns nothing). -/
def ctrlRun (exec : Nat → Nat → Bool) (subExec : Nat → Nat → List Bool)
    (replan : Nat → Option (List CtrlStep)) (maxReplans : Nat) (s : CtrlState) :
    CtrlOutcome × List StepRec × List (List Bool) :=
  if h : s.stepIndex < s.steps.length then
    if !exec s.replansUsed s.stepIndex && (s.steps.get ⟨s.stepIndex, h⟩).required then
      if hr : s.replansUsed < maxReplans then
        match replan (s.replansUsed + 1) with
        | none =>
          (.abortedParse (s.replansUsed + 1),
           [⟨(s.steps.get ⟨s.stepIndex, h⟩).id, exec s.replansUsed s.stepIndex⟩],
           [subExec s.replansUsed s.stepIndex])
        | some [] =>
          (.abortedParse (s.replansUsed + 1),
           [⟨(s.steps.get ⟨s.stepIndex, h⟩).id, exec s.replansUsed s.stepIndex⟩],
           [subExec s.replansUsed s.stepIndex])
        | some (st :: sts) =>
          ((ctrlRun exec subExec replan maxReplans ⟨st :: sts, 0, s.replansUsed + 1⟩).1,
           ⟨(s.steps.get ⟨s.stepIndex, h⟩).id, exec s.replansUsed s.stepIndex⟩ ::
             (ctrlRun exec subExec replan maxReplans ⟨st :: sts, 0, s.replansUsed + 1⟩).2.1,
           subExec s.replansUsed s.stepIndex ::
             (ctrlRun exec subExec replan maxReplans ⟨st :: sts, 0, s.replansUsed + 1⟩).2.2)
      else
        (.abortedBudget s.replansUsed,
         [⟨(s.steps.get ⟨s.stepIndex, h⟩).id, exec s.replansUsed s.stepIndex⟩],
         [subExec s.replansUsed s.stepIndex])
    else if (s.steps.get ⟨s.stepIndex, h⟩).stopIfTrue && exec s.replansUsed s.stepIndex then
      (.done s.replansUsed,
       [⟨(s.steps.get ⟨s.stepIndex, h⟩).id, exec s.replansUsed s.stepIndex⟩],
       [subExec s.replansUsed s.stepIndex])
    else
      ((ctrlRun exec subExec replan maxReplans ⟨s.steps, s.stepIndex + 1, s.replansUsed⟩).1,
       ⟨(s.steps.get ⟨s.stepIndex, h⟩).id, exec s.replansUsed s.stepIndex⟩ ::
         (ctrlRun exec subExec replan maxReplans ⟨s.steps, s.stepIndex + 1, s.replansUsed⟩).2.1,
       subExec s.replansUsed s.stepIndex ::
         (ctrlRun exec subExec replan maxReplans ⟨s.steps, s.stepIndex + 1, s.replansUsed⟩).2.2)
  else (.done s.replansUsed, [], [])
termination_by (maxReplans - s.replansUsed, s.steps.length - s.stepIndex)
decreasing_by
  · apply Prod.Lex.left
    omega
  · apply Prod.Lex.right
    omega

/-! ## Claim-support definitions -/

/-- All verify predicate specs of one optional substep. -/
def subVerifySpecs (sub : JVal) : List JVal :=
  match sub with
  | .obj sfs =>
    match objGet sfs "verify" with
    | some (.arr vs) => vs
    | _ => []
  | _ => []

/-- All verify predicate specs of one step, including its substeps'. -/
def stepVerifySpecs (st : JVal) : List JVal :=
  match st with
  | .obj fs =>
    (match objGet fs "verify" with
     | some (.arr vs) => vs
     | _ => []) ++
    (match objGet fs "optional_substeps" with
     | some (.arr subs) => subs.flatMap subVerifySpecs
     | _ => [])
  | _ => []

/-- Every predicate spec a run would hand to `build_predicate`: the
verify lists of all steps and of all their optional substeps. -/
def planVerifySpecs (plan : JVal) : List JVal :=
  match plan with
  | .obj fs =>
    match objGet fs "steps" with
    | some (.arr steps) => steps.flatMap stepVerifySpecs
    | _ => []
  | _ => []

/-- Is this the top-level id-contiguity error
(`...id must be contiguous starting at 1 (expected=...)`)? -/
def isContigErr : VErr → Bool
  | .idNotContiguous _ _ => true
  | _ => false

/-- The id of a step (defaulting to 0; only used under the hypothesis
that the step is an object with an integer id). -/
def stepIdInt (st : JVal) : Int :=
  match st with
  | .obj sfs =>
    match objGet sfs "id" with
    | some (.int n) => n
    | _ => 0
  | _ => 0

/-- Does a step carry both a `url` key and a string `target` containing
the placeholder token?  (The one shape on which `normalize_plan` is not
idempotent.) -/
def stepUrlTargetClash (st : JVal) : Bool :=
  match st with
  | .obj sfs =>
    objHas sfs "url" &&
      (match objGet sfs "target" with
       | some (.str t) => strContains t "product-url"
       | _ => false)
  | _ => false

/-- No step of the plan has the url/placeholder-target clash. -/
def noUrlTargetClash (fs : List (String × JVal)) : Bool :=
  match objGet fs "steps" with
  | some (.arr sts) => sts.all (fun st => !stepUrlTargetClash st)
  | _ => true

/-! ## Lemmas about the dict operations -/

theorem objGet_objSet_self (fs : List (String × JVal)) (k : String) (v : JVal) :
    objGet (objSet fs k v) k = some v := by
  induction fs with
  | nil => simp [objSet, objGet]
  | cons kv rest ih =>
    obtain ⟨k', v'⟩ := kv
    by_cases hk : (k' == k) = true
    · simp [objSet, hk, objGet]
    · simp [objSet, hk, objGet, ih]

theorem objGet_objSet_ne (fs : List (String × JVal)) (k k' : String) (v : JVal)
    (h : k' ≠ k) : objGet (objSet fs k v) k' = objGet fs k' := by
  induction fs with
  | nil =>
    simp [objSet, objGet]
    intro he
    exact absurd he.symm h
  | cons kv rest ih =>
    obtain ⟨k0, v0⟩ := kv
    by_cases hk : (k0 == k) = true
    · have hk' : (k0 == k') = false := by
        rw [beq_eq_false_iff_ne]
        intro he
        rw [beq_iff_eq] at hk
        exact h (he ▸ hk)
      simp [objSet, hk, objGet, hk']
    · by_cases hk2 : (k0 == k') = true
      · simp [objSet, hk, objGet, hk2]
      · simp [objSet, hk, objGet, hk2, ih]

theorem objSet_self (fs : List (String × JVal)) (k : String) (v : JVal)
    (h : objGet fs k = some v) : objSet fs k v = fs := by
  induction fs with
  | nil => simp [objGet] at h
  | cons kv rest ih =>
    obtain ⟨k0, v0⟩ := kv
    by_cases hk : (k0 == k) = true
    · simp [objGet, hk] at h
      simp [objSet, hk, h]
    · simp [objGet, hk] at h
      simp [objSet, hk, ih h]

theorem objSet_objSet (fs : List (String × JVal)) (k : String) (v v' : JVal) :
    objSet (objSet fs k v) k v' = objSet fs k v' := by
  induction fs with
  | nil => simp [objSet]
  | cons kv rest ih =>
    obtain ⟨k0, v0⟩ := kv
    by_cases hk : (k0 == k) = true
    · simp [objSet, hk]
    · simp [objSet, hk, ih]

theorem objGet_objPop_self (fs : List (String × JVal)) (k : String) :
    objGet (objPop fs k) k = none := by
  induction fs with
  | nil => simp [objPop, objGet]
  | cons kv rest ih =>
    obtain ⟨k0, v0⟩ := kv
    by_cases hk : (k0 == k) = true
    · have hne : (k0 != k) = false := by simp [bne, hk]
      simpa [objPop, List.filter, hne] using ih
    · have hne : (k0 != k) = true := by simp [bne]; simpa using hk
      have hk0 : ¬ k0 = k := by simpa using hk
      simp only [objPop, List.filter, hne] at ih ⊢
      simp [objGet, hk0, ih]

theorem objGet_objPop_ne (fs : List (String × JVal)) (k k' : String) (h : k' ≠ k) :
    objGet (objPop fs k) k' = objGet fs k' := by
  induction fs with
  | nil => simp [objPop, objGet]
  | cons kv rest ih =>
    obtain ⟨k0, v0⟩ := kv
    by_cases hk : (k0 == k) = true
    · have hk2 : (k0 == k') = false := by
        rw [beq_eq_false_iff_ne]
        intro he
        rw [beq_iff_eq] at hk
        exact h (hk ▸ he ▸ rfl)
      have : (k0 != k) = false := by simp [bne, hk]
      simp [objPop, List.filter, this, objGet, hk2]
      simpa [objPop] using ih
    · have : (k0 != k) = true := by simp [bne]; simpa using hk
      by_cases hk2 : (k0 == k') = true
      · simp [objPop, List.filter, this, objGet, hk2]
      · simp [objPop, List.filter, this, objGet, hk2]
        simpa [objPop] using ih

theorem objHas_objSet (fs : List (String × JVal)) (k k' : String) (v : JVal) :
    objHas (objSet fs k v) k' = (k' == k || objHas fs k') := by
  by_cases h : k' = k
  · subst h
    simp [objHas, objGet_objSet_self]
  · have := objGet_objSet_ne fs k k' v h
    simp [objHas, this, h]

/-! ## C8: predicate-arity rejection and normalization -/

/-- The spec's example plan: one CLICK step whose verify list holds
`url_contains(["a","b"])`. -/
def arityDemoPlan : JVal :=
  .obj [("task", .str "t"),
        ("steps", .arr [.obj [("id", .int 1), ("goal", .str "g"),
          ("action", .str "CLICK"),
          ("verify", .arr [.obj [("predicate", .str "url_contains"),
                                 ("args", .arr [.str "a", .str "b"])]])]])]

/-- C8: a step whose verify list contains `url_contains(["a","b"])` is
rejected by `validate_plan` with exactly the two-args-where-one-expected
error; `normalize_plan` rewrites the predicate to
`any_of([url_contains(["a"]), url_contains(["b"])])`, after which
`validate_plan` reports no error. -/
theorem url_contains_arity_normalization :
    validate_plan arityDemoPlan =
      [.predicateSpec "plan.steps[0].verify[0]" (.singleStringArg "url_contains")] ∧
    planVerifySpecs (normalize_plan arityDemoPlan) =
      [.obj [("predicate", .str "any_of"),
             ("args", .arr [wrapUrlContains (.str "a"), wrapUrlContains (.str "b")])]] ∧
    validate_plan (normalize_plan arityDemoPlan) = [] := by
  refine ⟨?_, rfl, ?_⟩
  · simp [validate_plan, arityDemoPlan, validateSteps, validateStep, validateVerifyList,
      _validate_predicate_spec, objGet, objHas, extraKeys, allowedStepKey, allowedActionStr,
      pyUpper, jTruthy, jTruthyV, isStrList]
    rfl
  · simp [validate_plan, arityDemoPlan, normalize_plan, normalizeStep, nsUrl, nsAction,
      nsVerify, nsPlaceholder, normalizeVerifyEntry,
      nveMultiArg, nvePathFragment, actionAlias, pyUpper, pyStrip, stripChars, isWs, isStrJ,
      objSet, objGet, objHas, objPop, wrapUrlContains, validateSteps, validateStep,
      validateVerifyList, _validate_predicate_spec, validateSpecArgs, extraKeys,
      allowedStepKey, allowedActionStr, jTruthy, jTruthyV, isStrList]

/-! ## C2: replan replaces the step list wholesale and resets the index -/

/-- C2: when a required step fails within budget and the replan parses to
a non-empty step list, the loop iteration moves to state
`⟨new steps, 0, replansUsed + 1⟩` — the active list is exactly the newly
parsed plan's steps and the index is 0 — and the whole run continues
exactly as a fresh run of the new plan (after recording the failure). -/
theorem replan_reset_wholesale (exec : Nat → Nat → Bool)
    (replan : Nat → Option (List CtrlStep)) (maxReplans : Nat) (s : CtrlState)
    (st0 : CtrlStep) (newRest : List CtrlStep)
    (hlt : s.stepIndex < s.steps.length)
    (hreq : (s.steps.get ⟨s.stepIndex, hlt⟩).required = true)
    (hfail : exec s.replansUsed s.stepIndex = false)
    (hbud : s.replansUsed < maxReplans)
    (hrep : replan (s.replansUsed + 1) = some (st0 :: newRest)) :
    ctrlIter exec replan maxReplans s = .inr ⟨st0 :: newRest, 0, s.replansUsed + 1⟩ ∧
    ∀ subExec,
      ctrlRun exec subExec replan maxReplans s =
        ((ctrlRun exec subExec replan maxReplans ⟨st0 :: newRest, 0, s.replansUsed + 1⟩).1,
         ⟨(s.steps.get ⟨s.stepIndex, hlt⟩).id, false⟩ ::
           (ctrlRun exec subExec replan maxReplans ⟨st0 :: newRest, 0, s.replansUsed + 1⟩).2.1,
         subExec s.replansUsed s.stepIndex ::
           (ctrlRun exec subExec replan maxReplans ⟨st0 :: newRest, 0, s.replansUsed + 1⟩).2.2) := by
  constructor
  · unfold ctrlIter
    rw [dif_pos hlt]
    simp only [hreq, hfail, Bool.not_false, Bool.true_and, Bool.and_true, if_true]
    rw [if_pos hbud, hrep]
  · intro subExec
    rw [ctrlRun]
    rw [dif_pos hlt]
    simp only [hreq, hfail, Bool.not_false, Bool.true_and, Bool.and_true, if_true]
    rw [dif_pos hbud, hrep]

/-- Witness for C2 at a concrete run: a one-step plan whose required step
fails, a budget of 1 and a one-step replan. -/
theorem replan_reset_wholesale_witness :
    ctrlIter (fun _ _ => false) (fun _ => some [⟨1, false, false⟩]) 1
        ⟨[⟨1, true, false⟩], 0, 0⟩ =
      .inr ⟨[⟨1, false, false⟩], 0, 1⟩ :=
  (replan_reset_wholesale (fun _ _ => false) (fun _ => some [⟨1, false, false⟩]) 1
    ⟨[⟨1, true, false⟩], 0, 0⟩ ⟨1, false, false⟩ [] (by decide) rfl rfl
    (by decide) rfl).1

/-! ## C1: replan budget enforcement and termination -/

/-- Stepping over a block of steps that neither fail while required nor
stop the run leaves the outcome unchanged. -/
theorem ctrlRun_fst_advance (exec : Nat → Nat → Bool) (subExec : Nat → Nat → List Bool)
    (replan : Nat → Option (List CtrlStep)) (maxReplans : Nat) :
    ∀ (d : Nat) (steps : List CtrlStep) (i u : Nat),
      i + d ≤ steps.length →
      (∀ j (hj : j < steps.length), i ≤ j → j < i + d →
        (steps.get ⟨j, hj⟩).required = false ∧
          ((steps.get ⟨j, hj⟩).stopIfTrue && exec u j) = false) →
      (ctrlRun exec subExec replan maxReplans ⟨steps, i, u⟩).1 =
        (ctrlRun exec subExec replan maxReplans ⟨steps, i + d, u⟩).1 := by
  intro d
  induction d with
  | zero => intro steps i u _ _; rfl
  | succ d ih =>
    intro steps i u hlen hpre
    have hi : i < steps.length := by omega
    have h1 := hpre i hi (le_refl i) (by omega)
    rw [ctrlRun]
    rw [dif_pos hi]
    simp only [h1.1, h1.2, Bool.and_false, Bool.false_eq_true, reduceIte]
    have heq : i + (d + 1) = i + 1 + d := by omega
    rw [heq]
    exact ih steps (i + 1) u (by omega)
      (fun j hj hj1 hj2 => hpre j hj (by omega) (by omega))

/-- The controller's replan counter never exceeds the budget: invariant
of the loop, by lexicographic induction on (budget left, steps left). -/
theorem ctrlRun_replans_le_aux (exec : Nat → Nat → Bool) (subExec : Nat → Nat → List Bool)
    (replan : Nat → Option (List CtrlStep)) :
    ∀ (a m b : Nat) (s : CtrlState),
      m - s.replansUsed ≤ a → s.steps.length - s.stepIndex ≤ b → s.replansUsed ≤ m →
      ((ctrlRun exec subExec replan m s).1).replans ≤ m := by
  intro a
  induction a with
  | zero =>
    intro m b
    induction b with
    | zero =>
      intro s ha hb hs
      rw [ctrlRun, dif_neg (by omega)]
      simpa [CtrlOutcome.replans] using hs
    | succ b ihb =>
      intro s ha hb hs
      rw [ctrlRun]
      split
      next h =>
        split
        next hcond =>
          split
          next hbud => omega
          next hbud => simpa [CtrlOutcome.replans] using hs
        next hcond =>
          split
          next hstop => simpa [CtrlOutcome.replans] using hs
          next hstop =>
            exact ihb ⟨s.steps, s.stepIndex + 1, s.replansUsed⟩
              (by show m - s.replansUsed ≤ 0; omega)
              (by show s.steps.length - (s.stepIndex + 1) ≤ b; omega) hs
      next h =>
        simpa [CtrlOutcome.replans] using hs
  | succ a iha =>
    intro m b
    induction b with
    | zero =>
      intro s ha hb hs
      rw [ctrlRun, dif_neg (by omega)]
      simpa [CtrlOutcome.replans] using hs
    | succ b ihb =>
      intro s ha hb hs
      rw [ctrlRun]
      split
      next h =>
        split
        next hcond =>
          split
          next hbud =>
            split
            next => simp [CtrlOutcome.replans]; omega
            next => simp [CtrlOutcome.replans]; omega
            next st sts hmatch =>
              exact iha m ((st :: sts).length) ⟨st :: sts, 0, s.replansUsed + 1⟩
                (by show m - (s.replansUsed + 1) ≤ a; omega)
                (by show (st :: sts).length - 0 ≤ (st :: sts).length; omega)
                (by show s.replansUsed + 1 ≤ m; omega)
          next hbud => simpa [CtrlOutcome.replans] using hs
        next hcond =>
          split
          next hstop => simpa [CtrlOutcome.replans] using hs
          next hstop =>
            exact ihb ⟨s.steps, s.stepIndex + 1, s.replansUsed⟩
              (by show m - s.replansUsed ≤ a + 1; omega)
              (by show s.steps.length - (s.stepIndex + 1) ≤ b; omega) hs
      next h =>
        simpa [CtrlOutcome.replans] using hs

/-- C1 (budget enforcement): with `maxReplans = 1`, if the initial plan
reaches its first required step and fails it, and the (successfully
parsed, non-empty) replanned plan again reaches its first required step
and fails it, the controller terminates in the budget-exhausted abort
after exactly one replan; and, in general, the replans used at
termination never exceed `maxReplans` (the run always terminates because
`ctrlRun` is a total function). -/
theorem replan_budget_enforcement (exec : Nat → Nat → Bool)
    (subExec : Nat → Nat → List Bool) (replan : Nat → Option (List CtrlStep))
    (steps0 l1 : List CtrlStep) (r0 r1 : Nat)
    (h0len : r0 < steps0.length)
    (h0req : (steps0.get ⟨r0, h0len⟩).required = true)
    (h0fail : exec 0 r0 = false)
    (h0pre : ∀ j (hj : j < steps0.length), j < r0 →
      (steps0.get ⟨j, hj⟩).required = false ∧
        ((steps0.get ⟨j, hj⟩).stopIfTrue && exec 0 j) = false)
    (hrep : replan 1 = some l1)
    (h1len : r1 < l1.length)
    (h1req : (l1.get ⟨r1, h1len⟩).required = true)
    (h1fail : exec 1 r1 = false)
    (h1pre : ∀ j (hj : j < l1.length), j < r1 →
      (l1.get ⟨j, hj⟩).required = false ∧
        ((l1.get ⟨j, hj⟩).stopIfTrue && exec 1 j) = false) :
    (ctrlRun exec subExec replan 1 ⟨steps0, 0, 0⟩).1 = .abortedBudget 1 ∧
    ∀ (m : Nat) (s : CtrlState), s.replansUsed ≤ m →
      ((ctrlRun exec subExec replan m s).1).replans ≤ m := by
  constructor
  · have hadv0 := ctrlRun_fst_advance exec subExec replan 1 r0 steps0 0 0
      (by omega) (fun j hj _ hj2 => h0pre j hj (by omega))
    simp only [Nat.zero_add] at hadv0
    rw [hadv0]
    rw [ctrlRun]
    rw [dif_pos h0len]
    simp only [h0req, h0fail, Bool.not_false, Bool.true_and, Bool.and_true, reduceIte]
    rw [dif_pos (by omega : (0:Nat) < 1), hrep]
    obtain ⟨st1, l1rest, rfl⟩ : ∃ st1 l1rest, l1 = st1 :: l1rest := by
      cases l1 with
      | nil => simp at h1len
      | cons a b => exact ⟨a, b, rfl⟩
    simp only
    have hadv1 := ctrlRun_fst_advance exec subExec replan 1 r1 (st1 :: l1rest) 0 1
      (by omega) (fun j hj _ hj2 => h1pre j hj (by omega))
    simp only [Nat.zero_add] at hadv1
    rw [hadv1]
    rw [ctrlRun]
    rw [dif_pos h1len]
    simp only [h1req, h1fail, Bool.not_false, Bool.true_and, Bool.and_true, reduceIte]
    rw [dif_neg (by omega : ¬ (1:Nat) < 1)]
  · intro m s hs
    exact ctrlRun_replans_le_aux exec subExec replan m m s.steps.length s
      (by omega) (by omega) hs

/-- Witness for C1: a one-required-step plan that always fails, replanned
once into another always-failing one-required-step plan, aborts with the
budget exhausted after exactly one replan. -/
theorem replan_budget_enforcement_witness :
    (ctrlRun (fun _ _ => false) (fun _ _ => []) (fun _ => some [⟨1, true, false⟩]) 1
      ⟨[⟨1, true, false⟩], 0, 0⟩).1 = .abortedBudget 1 :=
  (replan_budget_enforcement (fun _ _ => false) (fun _ _ => [])
    (fun _ => some [⟨1, true, false⟩]) [⟨1, true, false⟩] [⟨1, true, false⟩] 0 0
    (by decide) rfl rfl (fun j hj hlt => absurd hlt (Nat.not_lt_zero j))
    rfl (by decide) rfl rfl (fun j hj hlt => absurd hlt (Nat.not_lt_zero j))).1

/-! ## C9: optional-substep results never influence the controller -/

/-- The controller's outcome and its recorded top-level step results are
the same whatever the optional substeps do, by lexicographic induction. -/
theorem substep_independence_aux (exec : Nat → Nat → Bool)
    (replan : Nat → Option (List CtrlStep)) (maxReplans : Nat)
    (subExec1 subExec2 : Nat → Nat → List Bool) :
    ∀ (a b : Nat) (s : CtrlState),
      maxReplans - s.replansUsed ≤ a → s.steps.length - s.stepIndex ≤ b →
      ((ctrlRun exec subExec1 replan maxReplans s).1,
        (ctrlRun exec subExec1 replan maxReplans s).2.1) =
      ((ctrlRun exec subExec2 replan maxReplans s).1,
        (ctrlRun exec subExec2 replan maxReplans s).2.1) := by
  intro a
  induction a with
  | zero =>
    intro b
    induction b with
    | zero =>
      intro s ha hb
      conv_lhs => rw [ctrlRun]
      conv_rhs => rw [ctrlRun]
      have hnl : ¬ s.stepIndex < s.steps.length := by omega
      rw [dif_neg hnl, dif_neg hnl]
    | succ b ihb =>
      intro s ha hb
      conv_lhs => rw [ctrlRun]
      conv_rhs => rw [ctrlRun]
      split
      next h =>
        split
        next hcond =>
          split
          next hbud => omega
          next hbud => rfl
        next hcond =>
          split
          next hstop => rfl
          next hstop =>
            have ih' := ihb ⟨s.steps, s.stepIndex + 1, s.replansUsed⟩
              (by show maxReplans - s.replansUsed ≤ 0; omega)
              (by show s.steps.length - (s.stepIndex + 1) ≤ b; omega)
            rw [Prod.mk.injEq] at ih' ⊢
            exact ⟨ih'.1, by rw [ih'.2]⟩
      next h => rfl
  | succ a iha =>
    intro b
    induction b with
    | zero =>
      intro s ha hb
      conv_lhs => rw [ctrlRun]
      conv_rhs => rw [ctrlRun]
      have hnl : ¬ s.stepIndex < s.steps.length := by omega
      rw [dif_neg hnl, dif_neg hnl]
    | succ b ihb =>
      intro s ha hb
      conv_lhs => rw [ctrlRun]
      conv_rhs => rw [ctrlRun]
      split
      next h =>
        split
        next hcond =>
          split
          next hbud =>
            split
            next => rfl
            next => rfl
            next st sts hmatch =>
              have ih' := iha ((st :: sts).length) ⟨st :: sts, 0, s.replansUsed + 1⟩
                (by show maxReplans - (s.replansUsed + 1) ≤ a; omega)
                (by show (st :: sts).length - 0 ≤ (st :: sts).length; omega)
              rw [Prod.mk.injEq] at ih' ⊢
              exact ⟨ih'.1, by rw [ih'.2]⟩
          next hbud => rfl
        next hcond =>
          split
          next hstop => rfl
          next hstop =>
            have ih' := ihb ⟨s.steps, s.stepIndex + 1, s.replansUsed⟩
              (by show maxReplans - s.replansUsed ≤ a + 1; omega)
              (by show s.steps.length - (s.stepIndex + 1) ≤ b; omega)
            rw [Prod.mk.injEq] at ih' ⊢
            exact ⟨ih'.1, by rw [ih'.2]⟩
      next h => rfl

/-- C9: the optional-substep runner's results never trigger replanning
and never change a top-level step's recorded success — the controller's
outcome and its whole ordered list of recorded top-level step results
are identical for any two behaviours of the substep runner. -/
theorem substep_independence (exec : Nat → Nat → Bool)
    (replan : Nat → Option (List CtrlStep)) (maxReplans : Nat)
    (subExec1 subExec2 : Nat → Nat → List Bool) (s : CtrlState) :
    (ctrlRun exec subExec1 replan maxReplans s).1 =
      (ctrlRun exec subExec2 replan maxReplans s).1 ∧
    (ctrlRun exec subExec1 replan maxReplans s).2.1 =
      (ctrlRun exec subExec2 replan maxReplans s).2.1 := by
  have h := substep_independence_aux exec replan maxReplans subExec1 subExec2
    maxReplans s.steps.length s (by omega) (by omega)
  rw [Prod.mk.injEq] at h
  exact h

/-! ## C6: parse-retry behaviour (initial plan vs replan) -/

/-- Counterexample to C6 as stated: on the *initial* plan path the
Validator is never run inside the retry loop.  A planner whose first
completion parses to the schema-invalid plan `{}` makes
`extract_plan_with_retry` succeed on attempt 1, returning a plan that
fails validation — no corrective-feedback retry happens. -/
theorem initial_parse_skips_validation_cex :
    extract_plan_with_retry (fun _ => "raw1") (fun _ => some (.obj [])) 2 =
      .ok (.obj [], "raw1") ∧
    validate_plan (.obj []) = [.taskNotString, .stepsNotNonemptyList] := by
  constructor
  · rw [extract_plan_with_retry, extractPlanLoop]
    rw [dif_neg (by omega : ¬ 1 > 2)]
    rfl
  · rfl

/-- C6 (amended): per attempt, the *replan* parser runs the Normalizer
then the Validator, retains the validation errors of a failed attempt as
the corrective feedback handed to the next attempt's prompt, and, after
`maxAttempts = 2` failed cycles, fails carrying the last attempt's
validation error list and raw output.  The *initial* parser, by
contrast, performs no validation inside its retry loop: a parseable
attempt is returned (normalized) immediately, validated or not. -/
theorem parse_retry_validation_behaviour
    (planner0 : Nat → String) (extract0 : String → Option JVal)
    (fs0 : List (String × JVal))
    (hx0 : extract0 (planner0 1) = some (.obj fs0))
    (planner : Nat → Option (List VErr) → String) (extract : String → Option JVal)
    (P : Nat → Option (List VErr) → List (String × JVal))
    (hx : ∀ a fb, extract (planner a fb) = some (.obj (P a fb)))
    (hv : ∀ a fb, validate_plan (normalize_plan (.obj (P a fb))) ≠ []) :
    extract_plan_with_retry planner0 extract0 2 =
      .ok (normalize_plan (.obj fs0), planner0 1) ∧
    extract_replan_with_retry planner extract 2 =
      .error
        (some (validate_plan (normalize_plan
          (.obj (P 2 (some (validate_plan (normalize_plan (.obj (P 1 none))))))))),
         planner 2 (some (validate_plan (normalize_plan (.obj (P 1 none)))))) := by
  have hemp : ∀ a fb, (validate_plan (normalize_plan (.obj (P a fb)))).isEmpty = false := by
    intro a fb
    cases hval : validate_plan (normalize_plan (.obj (P a fb))) with
    | nil => exact absurd hval (hv a fb)
    | cons e es => rfl
  constructor
  · rw [extract_plan_with_retry, extractPlanLoop]
    rw [dif_neg (by omega : ¬ 1 > 2)]
    rw [hx0]
  · rw [extract_replan_with_retry, extractReplanLoop]
    rw [dif_neg (by omega : ¬ 1 > 2)]
    rw [hx 1 none]
    simp only [hemp 1 none, Bool.false_eq_true, reduceIte]
    rw [extractReplanLoop]
    rw [dif_neg (by omega : ¬ 2 > 2)]
    rw [hx 2 (some (validate_plan (normalize_plan (.obj (P 1 none)))))]
    simp only [hemp 2 (some (validate_plan (normalize_plan (.obj (P 1 none))))),
      Bool.false_eq_true, reduceIte]
    rw [extractReplanLoop]
    rw [dif_pos (by omega : 3 > 2)]

/-- Witness for the amended C6 at concrete oracles whose every attempt
parses to the invalid plan `{}`. -/
theorem parse_retry_validation_behaviour_witness :
    extract_plan_with_retry (fun _ => "p") (fun _ => some (.obj [])) 2 =
      .ok (normalize_plan (.obj []), "p") ∧
    extract_replan_with_retry (fun _ _ => "q") (fun _ => some (.obj [])) 2 =
      .error
        (some (validate_plan (normalize_plan
          (.obj ((fun (_ : Nat) (_ : Option (List VErr)) => ([] : List (String × JVal))) 2
            (some (validate_plan (normalize_plan (.obj ((fun (_ : Nat)
              (_ : Option (List VErr)) => ([] : List (String × JVal))) 1 none))))))))),
         "q") :=
  parse_retry_validation_behaviour (fun _ => "p") (fun _ => some (.obj [])) []
    rfl (fun _ _ => "q") (fun _ => some (.obj [])) (fun _ _ => [])
    (fun _ _ => rfl)
    (fun _ _ => by
      intro hcontra
      simp [normalize_plan, validate_plan, objGet, objHas, isStrList] at hcontra)

/-! ## C3: verification outcomes and step success -/

/-- A fixed observation whose URL does not contain `"x"`. -/
def c3Obs : Obs := ⟨"http://site/y", []⟩

/-- A concrete backend over the trivial world: every call succeeds and
every snapshot/current observation is `c3Obs`. -/
def c3Backend : Backend Unit where
  goto := fun _ w => .ok w
  waitLoadDom := fun w => .ok w
  waitNetworkIdle := fun w => .ok w
  waitTimeout := fun _ w => .ok w
  snapshot := fun w => .ok (w, some c3Obs)
  click := fun _ w => .ok w
  typeText := fun _ w => .ok w
  press := fun _ w => .ok w
  evalActiveValue := fun w => .ok (w, "")
  evalSetValue := fun _ w => .ok w
  screenshot := fun w => .ok (w, "")
  currentUrl := fun _ => "http://site/y"
  current := fun _ => c3Obs

/-- `url_contains(["x"])` as a predicate spec. -/
def ucxSpec : JVal := .obj [("predicate", .str "url_contains"), ("args", .arr [.str "x"])]

/-- Counterexample to C3 as stated: on a step with `required = false`
holding the single verify predicate `url_contains(["x"])`, which
evaluates false on the current observation, `apply_verifications`
returns success `false` — the non-required predicate does not merely
annotate the step, it fails its returned success. -/
theorem nonrequired_predicate_fails_step_cex :
    apply_verifications (fun _ _ => false) c3Backend (.arr [ucxSpec]) false () =
      .ok (false, ()) := by
  have hb : build_predicate ucxSpec = .ok (.urlContains (.str "x")) := by
    simp [build_predicate, ucxSpec, objGet, pyIndex]; rfl
  simp only [apply_verifications, jTruthyV, List.isEmpty_cons, Bool.not_false,
    Bool.not_true, Bool.false_eq_true, reduceIte, applyVerList, hb]
  rfl

/-- A predicate that never becomes true on any snapshot the backend can
produce polls to `false` whatever the budget. -/
theorem evEventually_false {W : Type} (snap : W → Except String (W × Option Obs))
    (p : Obs → Bool) (hnever : ∀ w w' o, snap w = .ok (w', some o) → p o = false) :
    ∀ (n : Nat) (w : W), (evEventually snap p n w).2 = false := by
  intro n
  induction n with
  | zero => intro w; rfl
  | succ n ih =>
    intro w
    rw [evEventually]
    cases hs : snap w with
    | error e => exact ih w
    | ok pr =>
      obtain ⟨w', oo⟩ := pr
      cases oo with
      | none => exact ih w'
      | some o =>
        have hp := hnever w w' o hs
        show (if p o = true then (w', true) else evEventually snap p n w').2 = false
        rw [hp]
        simpa using ih w'

/-- On a non-required step every predicate is evaluated once against the
current observation (no state change) and the outcomes are conjoined. -/
theorem applyVerList_false_eval {W : Type} (rx : String → String → Bool)
    (B : Backend W) :
    ∀ (vs : List JVal) (w : W),
      (∀ v ∈ vs, ∃ p, build_predicate v = .ok p) →
      applyVerList rx B vs false w =
        .ok (vs.all (fun v =>
          match build_predicate v with
          | .ok p => evalPred rx p (B.current w)
          | .error _ => false), w) := by
  intro vs
  induction vs with
  | nil => intro w _; rfl
  | cons v rest ih =>
    intro w hb
    obtain ⟨p, hp⟩ := hb v (List.mem_cons_self v rest)
    rw [applyVerList, hp]
    rw [ih w (fun u hu => hb u (List.mem_cons_of_mem v hu))]
    simp [List.all_cons, hp]

/-- On a required step, one never-true predicate forces `ok_all = false`. -/
theorem applyVerList_true_false {W : Type} (rx : String → String → Bool)
    (B : Backend W) (v0 : JVal) (p0 : VPred)
    (hb0 : build_predicate v0 = .ok p0)
    (hnever : ∀ w1 w2 o, B.snapshot w1 = .ok (w2, some o) → evalPred rx p0 o = false) :
    ∀ (vs : List JVal), v0 ∈ vs → ∀ (w : W) (b : Bool) (w' : W),
      applyVerList rx B vs true w = .ok (b, w') → b = false := by
  intro vs
  induction vs with
  | nil => intro hmem; cases hmem
  | cons v rest ih =>
    intro hmem w b w' happ
    rw [applyVerList] at happ
    rcases List.mem_cons.mp hmem with rfl | hmem'
    · rw [hb0] at happ
      simp only [reduceIte] at happ
      have hev := evEventually_false B.snapshot (evalPred rx p0) hnever 8 w
      cases hrest : applyVerList rx B rest true
          (evEventually B.snapshot (evalPred rx p0) 8 w).1 with
      | error e => rw [hrest] at happ; cases happ
      | ok pr =>
        obtain ⟨restOk, w2⟩ := pr
        rw [hrest] at happ
        have hpair := Except.ok.inj happ
        have h1 : ((evEventually B.snapshot (evalPred rx p0) 8 w).2 && restOk) = b :=
          congrArg Prod.fst hpair
        rw [← h1, hev]
        rfl
    · cases hbv : build_predicate v with
      | error e => rw [hbv] at happ; cases happ
      | ok p =>
        rw [hbv] at happ
        simp only [reduceIte] at happ
        cases hrest : applyVerList rx B rest true
            (evEventually B.snapshot (evalPred rx p) 8 w).1 with
        | error e => rw [hrest] at happ; cases happ
        | ok pr =>
          obtain ⟨restOk, w2⟩ := pr
          rw [hrest] at happ
          have hpair := Except.ok.inj happ
          have h1 : ((evEventually B.snapshot (evalPred rx p) 8 w).2 && restOk) = b :=
            congrArg Prod.fst hpair
          have hro : restOk = false :=
            ih hmem' (evEventually B.snapshot (evalPred rx p) 8 w).1 restOk w2 hrest
          rw [← h1, hro]
          simp

/-- C3 (amended): a step's returned success is the conjunction of ALL of
its per-predicate outcomes; `required` only selects polled versus
one-shot evaluation.  (i) On a `required = false` step each predicate is
evaluated once against the current observation and the returned success
is the conjunction of those one-shot outcomes — predicates evaluating
false DO make the returned success false, they do not merely annotate.
(ii) On a `required = true` step any predicate that never becomes true
within its poll budget forces the returned success to false. -/
theorem apply_verifications_conjunction {W : Type} (rx : String → String → Bool)
    (B : Backend W) (vs : List JVal) (w : W) :
    ((∀ v ∈ vs, ∃ p, build_predicate v = .ok p) →
      apply_verifications rx B (.arr vs) false w =
        .ok (vs.all (fun v =>
          match build_predicate v with
          | .ok p => evalPred rx p (B.current w)
          | .error _ => false), w)) ∧
    (∀ (v0 : JVal) (p0 : VPred), v0 ∈ vs → build_predicate v0 = .ok p0 →
      (∀ w1 w2 o, B.snapshot w1 = .ok (w2, some o) → evalPred rx p0 o = false) →
      ∀ (b : Bool) (w' : W),
        apply_verifications rx B (.arr vs) true w = .ok (b, w') → b = false) := by
  cases vs with
  | nil =>
    constructor
    · intro _; rfl
    · intro v0 p0 hmem; cases hmem
  | cons v rest =>
    constructor
    · intro hb
      simp only [apply_verifications, jTruthyV, List.isEmpty_cons, Bool.not_false,
        Bool.not_true, Bool.false_eq_true, reduceIte]
      exact applyVerList_false_eval rx B (v :: rest) w hb
    · intro v0 p0 hmem hb0 hnever b w' happ
      simp only [apply_verifications, jTruthyV, List.isEmpty_cons, Bool.not_false,
        Bool.not_true, Bool.false_eq_true, reduceIte] at happ
      exact applyVerList_true_false rx B v0 p0 hb0 hnever (v :: rest) hmem w b w' happ

/-- Witness for the amended C3 at the concrete backend and the
`url_contains(["x"])` spec: one-shot conjunction on the non-required
side, and a forced false on the required side. -/
theorem apply_verifications_conjunction_witness :
    apply_verifications (fun _ _ => false) c3Backend (.arr [ucxSpec]) false () =
      .ok (([ucxSpec].all (fun v =>
        match build_predicate v with
        | .ok p => evalPred (fun _ _ => false) p (c3Backend.current ())
        | .error _ => false)), ()) ∧
    (∀ (b : Bool) (w' : Unit),
      apply_verifications (fun _ _ => false) c3Backend (.arr [ucxSpec]) true () =
        .ok (b, w') → b = false) := by
  have hb : build_predicate ucxSpec = .ok (.urlContains (.str "x")) := by
    simp [build_predicate, ucxSpec, objGet, pyIndex]; rfl
  constructor
  · exact (apply_verifications_conjunction (fun _ _ => false) c3Backend [ucxSpec] ()).1
      (by intro v hv; rw [List.mem_singleton.mp hv]; exact ⟨_, hb⟩)
  · intro b w' happ
    refine (apply_verifications_conjunction (fun _ _ => false) c3Backend [ucxSpec] ()).2
      ucxSpec (.urlContains (.str "x")) (List.mem_singleton.mpr rfl) hb ?_ b w' happ
    intro w1 w2 o hsnap
    have h2 : (w1, some c3Obs) = (w2, some o) := Except.ok.inj hsnap
    have h3 : some c3Obs = some o := congrArg Prod.snd h2
    rw [← Option.some.inj h3]
    rfl

/-! ## C4: Action-Backend errors are NOT caught at the Step Executor -/

/-- A backend whose `Navigate` raises (e.g. a closed page); every other
call succeeds. -/
def c4Backend : Backend Unit where
  goto := fun _ _ => .error "TargetClosedError"
  waitLoadDom := fun w => .ok w
  waitNetworkIdle := fun w => .ok w
  waitTimeout := fun _ w => .ok w
  snapshot := fun w => .ok (w, some c3Obs)
  click := fun _ w => .ok w
  typeText := fun _ w => .ok w
  press := fun _ w => .ok w
  evalActiveValue := fun w => .ok (w, "")
  evalSetValue := fun _ w => .ok w
  screenshot := fun w => .ok (w, "")
  currentUrl := fun _ => "u"
  current := fun _ => c3Obs

/-- Executor environment over `c4Backend`. -/
def c4Env : ExecEnv Unit where
  B := c4Backend
  rx := fun _ _ => false
  execOracle := fun _ _ _ => ""
  visionOracle := none
  fmt := fun _ => ""
  searchQuery := "laptop"

/-- A well-formed required NAVIGATE step. -/
def c4Step : JVal :=
  .obj [("id", .int 1), ("goal", .str "open"), ("action", .str "NAVIGATE"),
        ("target", .str "https://x"), ("required", .bool true),
        ("verify", .arr [ucxSpec])]

/-- Counterexample to C4 as stated: when `Navigate` raises, the error
escapes `run_executor_step` as an error (crashing the run) instead of
being converted into a failed, non-fatal `(success = false, note)`
result. -/
theorem backend_error_escapes_cex :
    run_executor_step c4Env c4Step () = .error "TargetClosedError" := rfl

/-- C4 (amended): an Action Backend error is NOT caught at the Step
Executor boundary: for every environment and every NAVIGATE step whose
`Navigate` call raises, `run_executor_step` propagates that very error
out of the step executor (only the active-element value probe, the
value-set evaluate and the networkidle wait are locally caught in the
source). -/
theorem backend_error_propagates {W : Type} (env : ExecEnv W) (step : JVal)
    (w : W) (turl : String) (e : String)
    (hact : step.get "action" = some (.str "NAVIGATE"))
    (htgt : (step.get "target").getD (.str DEFAULT_PLAN_URL) = .str turl)
    (hgoto : env.B.goto turl w = .error e) :
    run_executor_step env step w = .error e := by
  have hupp : pyUpper "NAVIGATE" = "NAVIGATE" := rfl
  simp only [run_executor_step, hact, htgt, hupp, pure_bind, beq_self_eq_true, reduceIte]
  show Except.bind ((liftW (env.B.goto turl)) w) _ = .error e
  simp [liftW, hgoto, Except.bind, Except.map]

/-- Witness for the amended C4 at the concrete closed-page backend. -/
theorem backend_error_propagates_witness :
    run_executor_step c4Env c4Step () = .error "TargetClosedError" :=
  backend_error_propagates c4Env c4Step () "https://x" "TargetClosedError" rfl rfl rfl

/-! ## C5: validated specs build without runtime errors -/

/-- The computation succeeded (did not raise). -/
def ExceptIsOk {α : Type} (x : Except String α) : Prop := ∃ a, x = .ok a

theorem exceptIsOk_bind {α β : Type} {x : Except String α} {f : α → Except String β}
    (hx : ExceptIsOk x) (hf : ∀ a, x = .ok a → ExceptIsOk (f a)) :
    ExceptIsOk (x >>= f) := by
  obtain ⟨a, ha⟩ := hx
  rw [ha]
  exact hf a ha

theorem pyIndex_arr_ok (l : List JVal) (i : Nat) (h : i < l.length) :
    ExceptIsOk (pyIndex (.arr l) i) := by
  refine ⟨l[i], ?_⟩
  simp [pyIndex, List.getElem?_eq_getElem h]

theorem sizeOf_jval_pos (v : JVal) : 1 ≤ sizeOf v := by
  cases v <;> simp <;> omega

/-- Joint induction: a predicate spec (or arg list) with no validation
errors builds successfully. -/
theorem build_of_valid_aux :
    ∀ (n : Nat),
      (∀ (spec : JVal) (path : String), sizeOf spec ≤ n →
        _validate_predicate_spec spec path = [] → ExceptIsOk (build_predicate spec)) ∧
      (∀ (subs : List JVal) (path : String) (i : Nat), sizeOf subs ≤ n →
        validateSpecArgs subs path i = [] → ExceptIsOk (buildPredList subs)) := by
  intro n
  induction n using Nat.strong_induction_on with
  | _ n ih =>
    constructor
    · intro spec path hsz hval
      match spec with
      | .str _ | .int _ | .bool _ | .null | .arr _ =>
        simp [_validate_predicate_spec] at hval
      | .obj fs =>
        rw [_validate_predicate_spec] at hval
        cases hpred : objGet fs "predicate" with
        | none => rw [hpred] at hval; cases hval
        | some pv =>
          rw [hpred] at hval
          cases pv with
          | int m => cases hval
          | bool b => cases hval
          | null => cases hval
          | arr l => cases hval
          | obj l => cases hval
          | str predicate =>
            dsimp only at hval
            by_cases bc1 : (predicate == "url_contains" || predicate == "url_matches"
                || predicate == "exists" || predicate == "not_exists") = true
            · rw [if_pos bc1] at hval
              split at hval
              case _ s heq =>
                simp only [Bool.or_eq_true, beq_iff_eq] at bc1
                rcases bc1 with ((rfl | rfl) | rfl) | rfl
                · refine ⟨.urlContains (.str s), ?_⟩
                  rw [build_predicate, hpred, heq]
                  rfl
                · rw [build_predicate, hpred, heq]
                  show ExceptIsOk (if (strContains s "/dp/" && !strStartsWith s "http") = true
                      then Except.ok (VPred.urlContains (.str "/dp/"))
                      else Except.ok (VPred.urlMatches (.str s)))
                  by_cases hdp : (strContains s "/dp/" && !strStartsWith s "http") = true
                  · rw [if_pos hdp]
                    exact ⟨_, rfl⟩
                  · rw [if_neg hdp]
                    exact ⟨_, rfl⟩
                · refine ⟨.existsSel (.str s), ?_⟩
                  rw [build_predicate, hpred, heq]
                  rfl
                · refine ⟨.notExistsSel (.str s), ?_⟩
                  rw [build_predicate, hpred, heq]
                  rfl
              case _ => cases hval
            · rw [if_neg bc1] at hval
              by_cases bc2 : (predicate == "element_count") = true
              · rw [if_pos bc2] at hval
                split at hval
                case _ s rest heq =>
                  rw [beq_iff_eq] at bc2
                  subst bc2
                  rw [build_predicate, hpred, heq]
                  apply exceptIsOk_bind (pyIndex_arr_ok (.str s :: rest) 0 (by simp))
                  intro sel hsel
                  apply exceptIsOk_bind ⟨(.str s :: rest).length, rfl⟩
                  intro len hlen
                  have hlenv : len = rest.length + 1 := by
                    have := Except.ok.inj hlen
                    simpa using this.symm
                  by_cases h1 : len > 1
                  · rw [if_pos h1]
                    apply exceptIsOk_bind (pyIndex_arr_ok (.str s :: rest) 1 (by simp; omega))
                    intro mn hmn
                    dsimp only
                    by_cases h2 : len > 2
                    · rw [if_pos h2]
                      apply exceptIsOk_bind (pyIndex_arr_ok (.str s :: rest) 2 (by simp; omega))
                      intro mx hmx
                      dsimp only
                      exact ⟨_, rfl⟩
                    · rw [if_neg h2]
                      exact ⟨_, rfl⟩
                  · rw [if_neg h1]
                    apply exceptIsOk_bind ⟨JVal.int 0, rfl⟩
                    intro mn hmn
                    dsimp only
                    rw [if_neg (by omega : ¬ len > 2)]
                    apply exceptIsOk_bind ⟨JVal.null, rfl⟩
                    intro mx hmx
                    dsimp only
                    exact ⟨_, rfl⟩
                case _ => cases hval
              · rw [if_neg bc2] at hval
                by_cases bc3 : (predicate == "any_of" || predicate == "all_of") = true
                · rw [if_pos bc3] at hval
                  split at hval
                  case _ s0 subs heq =>
                    have hsub : sizeOf (s0 :: subs) ≤ n - 1 := by
                      have h1 := sizeOf_objGet heq
                      simp at h1 hsz ⊢
                      omega
                    have hn1 : n - 1 < n := by
                      have h1 := sizeOf_objGet heq
                      simp at h1 hsz
                      omega
                    have hlist := (ih (n - 1) hn1).2 (s0 :: subs) path 0 hsub hval
                    simp only [Bool.or_eq_true, beq_iff_eq] at bc3
                    rcases bc3 with rfl | rfl
                    · rw [build_predicate, hpred, heq]
                      exact exceptIsOk_bind hlist (fun ps _ => ⟨_, rfl⟩)
                    · rw [build_predicate, hpred, heq]
                      exact exceptIsOk_bind hlist (fun ps _ => ⟨_, rfl⟩)
                  case _ => cases hval
                · rw [if_neg bc3] at hval
                  cases hval
    · intro subs path i hsz hval
      match subs with
      | [] => exact ⟨[], by rw [buildPredList]⟩
      | s :: rest =>
        rw [validateSpecArgs] at hval
        rw [List.append_eq_nil] at hval
        have hs1 : sizeOf s ≤ n - 1 := by
          have := sizeOf_jval_pos s
          simp at hsz
          omega
        have hr1 : sizeOf rest ≤ n - 1 := by
          have := sizeOf_jval_pos s
          simp at hsz
          omega
        have hn1 : n - 1 < n := by
          have := sizeOf_jval_pos s
          simp at hsz
          omega
        have h1 := (ih (n - 1) hn1).1 s (path ++ ".args[" ++ toString i ++ "]") hs1 hval.1
        have h2 := (ih (n - 1) hn1).2 rest path (i + 1) hr1 hval.2
        rw [buildPredList]
        apply exceptIsOk_bind h1
        intro p hp
        apply exceptIsOk_bind h2
        intro ps hps
        exact ⟨_, rfl⟩

/-- A predicate spec with no validation errors builds successfully. -/
theorem build_of_valid (spec : JVal) (path : String)
    (h : _validate_predicate_spec spec path = []) :
    ExceptIsOk (build_predicate spec) :=
  (build_of_valid_aux (sizeOf spec)).1 spec path (Nat.le_refl _) h

/-- Every member of an error-free verify list builds successfully. -/
theorem validateVerifyList_builds :
    ∀ (vs : List JVal) (base : String) (j : Nat),
      validateVerifyList vs base j = [] →
      ∀ v ∈ vs, ExceptIsOk (build_predicate v) := by
  intro vs
  induction vs with
  | nil => intro base j h v hv; cases hv
  | cons v rest ih =>
    intro base j h w hw
    rw [validateVerifyList, List.append_eq_nil] at h
    rcases List.mem_cons.mp hw with rfl | hw'
    · exact build_of_valid w _ h.1
    · exact ih base (j + 1) h.2 w hw'

/-- Every verify spec of every substep of an error-free substep list
builds successfully. -/
theorem validateSubsteps_builds :
    ∀ (subs : List JVal) (i k : Nat) (se ls : Option Int),
      validateSubsteps i k se ls subs = [] →
      ∀ sub ∈ subs, ∀ v ∈ subVerifySpecs sub, ExceptIsOk (build_predicate v) := by
  intro subs
  induction subs with
  | nil => intro i k se ls h sub hsub; cases hsub
  | cons sub rest ih =>
    intro i k se ls h s hs v hv
    cases sub with
    | str a => simp [validateSubsteps] at h
    | int a => simp [validateSubsteps] at h
    | bool a => simp [validateSubsteps] at h
    | null => simp [validateSubsteps] at h
    | arr a => simp [validateSubsteps] at h
    | obj sfs =>
      simp only [validateSubsteps, List.append_eq_nil, and_assoc] at h
      obtain ⟨hK, hI, hG, hA, hV, hR⟩ := h
      rcases List.mem_cons.mp hs with rfl | hs'
      · cases hver : objGet sfs "verify" with
        | none => simp [subVerifySpecs, hver] at hv
        | some w =>
          cases w with
          | arr vs =>
            simp only [subVerifySpecs, hver] at hv
            simp only [hver] at hV
            exact validateVerifyList_builds vs _ 0 hV v hv
          | str a => simp [subVerifySpecs, hver] at hv
          | int a => simp [subVerifySpecs, hver] at hv
          | bool a => simp [subVerifySpecs, hver] at hv
          | null => simp [subVerifySpecs, hver] at hv
          | obj a => simp [subVerifySpecs, hver] at hv
      · exact ih i (k + 1) _ _ hR s hs' v hv

/-- Every verify spec of an error-free step (including its substeps)
builds successfully. -/
theorem validateStep_builds (i : Nat) (expected : Int) (st : JVal)
    (h : (validateStep i expected st).1 = []) :
    ∀ v ∈ stepVerifySpecs st, ExceptIsOk (build_predicate v) := by
  intro v hv
  cases st with
  | str a => simp [stepVerifySpecs] at hv
  | int a => simp [stepVerifySpecs] at hv
  | bool a => simp [stepVerifySpecs] at hv
  | null => simp [stepVerifySpecs] at hv
  | arr a => simp [stepVerifySpecs] at hv
  | obj fs =>
    simp only [validateStep, List.append_eq_nil, and_assoc] at h
    obtain ⟨h1, h2, h3, h4, h5, h6, h7, h8, h9⟩ := h
    simp only [stepVerifySpecs] at hv
    rcases List.mem_append.mp hv with hv1 | hv2
    · cases hver : objGet fs "verify" with
      | none => simp [hver] at hv1
      | some w =>
        cases w with
        | arr vs =>
          simp only [hver] at hv1 h7
          exact validateVerifyList_builds vs _ 0 h7 v hv1
        | str a => simp [hver] at hv1
        | int a => simp [hver] at hv1
        | bool a => simp [hver] at hv1
        | null => simp [hver] at hv1
        | obj a => simp [hver] at hv1
    · cases hsub : objGet fs "optional_substeps" with
      | none => simp [hsub] at hv2
      | some w =>
        cases w with
        | arr subs =>
          simp only [hsub] at hv2 h9
          rw [List.mem_flatMap] at hv2
          obtain ⟨sub, hsubmem, hvmem⟩ := hv2
          exact validateSubsteps_builds subs i 0 none none h9 sub hsubmem v hvmem
        | str a => simp [hsub] at hv2
        | int a => simp [hsub] at hv2
        | bool a => simp [hsub] at hv2
        | null => simp [hsub] at hv2
        | obj a => simp [hsub] at hv2

/-- Every verify spec of every step of an error-free step list builds
successfully. -/
theorem validateSteps_builds :
    ∀ (sts : List JVal) (i : Nat) (expected : Int),
      validateSteps i expected sts = [] →
      ∀ st ∈ sts, ∀ v ∈ stepVerifySpecs st, ExceptIsOk (build_predicate v) := by
  intro sts
  induction sts with
  | nil => intro i e h st hst; cases hst
  | cons st rest ih =>
    intro i e h s hs v hv
    rw [validateSteps, List.append_eq_nil] at h
    rcases List.mem_cons.mp hs with rfl | hs'
    · exact validateStep_builds i e s h.1 v hv
    · exact ih (i + 1) _ h.2 s hs' v hv

/-- C5: if `validate_plan` reports no error, then every predicate spec the
run would hand to `build_predicate` — every entry of every step\x27s and
every optional substep\x27s verify list — builds into a runtime predicate
without raising: `build_predicate` returns `.ok` on all of them. -/
theorem validated_plan_builds_predicates (plan : JVal)
    (hv : validate_plan plan = []) :
    ∀ v ∈ planVerifySpecs plan, ExceptIsOk (build_predicate v) := by
  intro v hmem
  cases plan with
  | str a => simp [planVerifySpecs] at hmem
  | int a => simp [planVerifySpecs] at hmem
  | bool a => simp [planVerifySpecs] at hmem
  | null => simp [planVerifySpecs] at hmem
  | arr a => simp [planVerifySpecs] at hmem
  | obj fs =>
    cases hst : objGet fs "steps" with
    | none =>
      simp [validate_plan, hst, List.append_eq_nil] at hv
    | some w =>
      cases w with
      | arr l =>
        cases l with
        | nil => simp [validate_plan, hst, List.append_eq_nil] at hv
        | cons s0 rest =>
          simp only [validate_plan, hst, List.append_eq_nil, and_assoc] at hv
          obtain ⟨hT, hN, hS⟩ := hv
          simp only [planVerifySpecs, hst] at hmem
          rw [List.mem_flatMap] at hmem
          obtain ⟨st, hstm, hvm⟩ := hmem
          exact validateSteps_builds (s0 :: rest) 0 1 hS st hstm v hvm
      | str a => simp [validate_plan, hst, List.append_eq_nil] at hv
      | int a => simp [validate_plan, hst, List.append_eq_nil] at hv
      | bool a => simp [validate_plan, hst, List.append_eq_nil] at hv
      | null => simp [validate_plan, hst, List.append_eq_nil] at hv
      | obj a => simp [validate_plan, hst, List.append_eq_nil] at hv

/-- A concrete valid plan: one NAVIGATE step verifying `exists("role=button")`. -/
def c5Plan : JVal :=
  .obj [("task", .str "open the shop"),
        ("steps", .arr [.obj [("id", .int 1), ("goal", .str "open"),
          ("action", .str "NAVIGATE"), ("target", .str "https://shop.example"),
          ("verify", .arr [.obj [("predicate", .str "exists"),
                                 ("args", .arr [.str "role=button"])]])]])]

/-- Witness for C5 at a concrete valid plan. -/
theorem validated_plan_builds_predicates_witness :
    validate_plan c5Plan = [] ∧
      ∀ v ∈ planVerifySpecs c5Plan, ExceptIsOk (build_predicate v) := by
  have hv : validate_plan c5Plan = [] := by
    simp [c5Plan, validate_plan, validateSteps, validateStep, validateVerifyList,
      _validate_predicate_spec, objGet, objHas, extraKeys, allowedStepKey,
      allowedActionStr, pyUpper, jTruthy, jTruthyV, isStrList]
  exact ⟨hv, validated_plan_builds_predicates c5Plan hv⟩

/-! ## C7: id-contiguity characterization -/

/-- Does the step carry an integer `id`? -/
def hasIntId : JVal → Bool
  | .obj fs =>
    match objGet fs "id" with
    | some (.int _) => true
    | _ => false
  | _ => false

/-- The contiguous id sequence `e, e+1, ..., e+n-1`. -/
def seqFrom : Int → Nat → List Int
  | _, 0 => []
  | e, n + 1 => e :: seqFrom (e + 1) n

theorem hasIntId_elim {st : JVal} (h : hasIntId st = true) :
    ∃ fs m, st = .obj fs ∧ objGet fs "id" = some (.int m) := by
  cases st with
  | str a => exact absurd h (by simp [hasIntId])
  | int a => exact absurd h (by simp [hasIntId])
  | bool a => exact absurd h (by simp [hasIntId])
  | null => exact absurd h (by simp [hasIntId])
  | arr a => exact absurd h (by simp [hasIntId])
  | obj fs =>
    rw [hasIntId] at h
    cases hid : objGet fs "id" with
    | none => rw [hid] at h; cases h
    | some v =>
      rw [hid] at h
      cases v with
      | int m => exact ⟨fs, m, rfl, hid⟩
      | str a => cases h
      | bool a => cases h
      | null => cases h
      | arr a => cases h
      | obj a => cases h

theorem noContig_nil : ∀ e ∈ ([] : List VErr), isContigErr e = false := by
  intro e he; cases he

theorem noContig_single {x : VErr} (hx : isContigErr x = false) :
    ∀ e ∈ [x], isContigErr e = false := by
  intro e he
  rw [List.mem_singleton] at he
  subst he; exact hx

theorem noContig_append {a b : List VErr}
    (ha : ∀ e ∈ a, isContigErr e = false) (hb : ∀ e ∈ b, isContigErr e = false) :
    ∀ e ∈ a ++ b, isContigErr e = false := by
  intro e he
  rcases List.mem_append.mp he with h | h
  · exact ha e h
  · exact hb e h

/-- Predicate-spec validation never emits a top-level contiguity error. -/
theorem noContig_spec_aux :
    ∀ (n : Nat),
      (∀ (spec : JVal) (path : String), sizeOf spec ≤ n →
        ∀ e ∈ _validate_predicate_spec spec path, isContigErr e = false) ∧
      (∀ (subs : List JVal) (path : String) (i : Nat), sizeOf subs ≤ n →
        ∀ e ∈ validateSpecArgs subs path i, isContigErr e = false) := by
  intro n
  induction n using Nat.strong_induction_on with
  | _ n ih =>
    constructor
    · intro spec path hsz
      match spec with
      | .str _ | .int _ | .bool _ | .null | .arr _ =>
        simp [_validate_predicate_spec, isContigErr]
      | .obj fs =>
        rw [_validate_predicate_spec]
        cases hpred : objGet fs "predicate" with
        | none => exact noContig_single rfl
        | some pv =>
          cases pv with
          | int m => exact noContig_single rfl
          | bool b => exact noContig_single rfl
          | null => exact noContig_single rfl
          | arr l => exact noContig_single rfl
          | obj l => exact noContig_single rfl
          | str predicate =>
            dsimp only
            by_cases bc1 : (predicate == "url_contains" || predicate == "url_matches"
                || predicate == "exists" || predicate == "not_exists") = true
            · rw [if_pos bc1]
              split
              · exact noContig_nil
              · exact noContig_single rfl
            · rw [if_neg bc1]
              by_cases bc2 : (predicate == "element_count") = true
              · rw [if_pos bc2]
                split
                · exact noContig_nil
                · exact noContig_single rfl
              · rw [if_neg bc2]
                by_cases bc3 : (predicate == "any_of" || predicate == "all_of") = true
                · rw [if_pos bc3]
                  split
                  next s0 subs heq =>
                    have hsub : sizeOf (s0 :: subs) ≤ n - 1 := by
                      have h1 := sizeOf_objGet heq
                      simp at h1 hsz ⊢
                      omega
                    have hn1 : n - 1 < n := by
                      have h1 := sizeOf_objGet heq
                      simp at h1 hsz
                      omega
                    exact (ih (n - 1) hn1).2 (s0 :: subs) path 0 hsub
                  next => exact noContig_single rfl
                · rw [if_neg bc3]
                  exact noContig_single rfl
    · intro subs path i hsz
      match subs with
      | [] => rw [validateSpecArgs]; exact noContig_nil
      | s :: rest =>
        rw [validateSpecArgs]
        have hs1 : sizeOf s ≤ n - 1 := by
          have := sizeOf_jval_pos s
          simp at hsz
          omega
        have hr1 : sizeOf rest ≤ n - 1 := by
          have := sizeOf_jval_pos s
          simp at hsz
          omega
        have hn1 : n - 1 < n := by
          have := sizeOf_jval_pos s
          simp at hsz
          omega
        exact noContig_append
          ((ih (n - 1) hn1).1 s (path ++ ".args[" ++ toString i ++ "]") hs1)
          ((ih (n - 1) hn1).2 rest path (i + 1) hr1)

theorem noContig_spec (spec : JVal) (path : String) :
    ∀ e ∈ _validate_predicate_spec spec path, isContigErr e = false :=
  (noContig_spec_aux (sizeOf spec)).1 spec path (Nat.le_refl _)

theorem noContig_verifyList :
    ∀ (vs : List JVal) (base : String) (j : Nat),
      ∀ e ∈ validateVerifyList vs base j, isContigErr e = false := by
  intro vs
  induction vs with
  | nil => intro base j; exact noContig_nil
  | cons v rest ih =>
    intro base j
    rw [validateVerifyList]
    exact noContig_append (noContig_spec v _) (ih base (j + 1))

/-- Substep validation never emits a top-level contiguity error (its own
contiguity errors are the distinct `subIdNotContiguous`). -/
theorem noContig_substeps :
    ∀ (subs : List JVal) (i k : Nat) (se ls : Option Int),
      ∀ e ∈ validateSubsteps i k se ls subs, isContigErr e = false := by
  intro subs
  induction subs with
  | nil => intro i k se ls; exact noContig_nil
  | cons sub rest ih =>
    intro i k se ls
    cases sub with
    | str a =>
      simp only [validateSubsteps]
      intro e he
      rcases List.mem_cons.mp he with rfl | h
      · rfl
      · exact ih i (k + 1) se ls e h
    | int a =>
      simp only [validateSubsteps]
      intro e he
      rcases List.mem_cons.mp he with rfl | h
      · rfl
      · exact ih i (k + 1) se ls e h
    | bool a =>
      simp only [validateSubsteps]
      intro e he
      rcases List.mem_cons.mp he with rfl | h
      · rfl
      · exact ih i (k + 1) se ls e h
    | null =>
      simp only [validateSubsteps]
      intro e he
      rcases List.mem_cons.mp he with rfl | h
      · rfl
      · exact ih i (k + 1) se ls e h
    | arr a =>
      simp only [validateSubsteps]
      intro e he
      rcases List.mem_cons.mp he with rfl | h
      · rfl
      · exact ih i (k + 1) se ls e h
    | obj sfs =>
      simp only [validateSubsteps]
      refine noContig_append (noContig_append (noContig_append (noContig_append
        (noContig_append ?_ ?_) ?_) ?_) ?_) (ih i (k + 1) _ _)
      · split
        · exact noContig_single rfl
        · exact noContig_nil
      · cases hid : objGet sfs "id" with
        | none =>
          simp only [hid]
          cases ls with
          | none => exact noContig_nil
          | some p => exact noContig_single rfl
        | some v =>
          cases v with
          | int m =>
            refine noContig_append (noContig_append ?_ ?_) ?_
            · cases se with
              | none =>
                show ∀ e ∈ (if m ≠ 1 then [VErr.subIdNotStartOne i k m] else []),
                  isContigErr e = false
                by_cases hm : m ≠ 1
                · rw [if_pos hm]
                  refine noContig_single ?_
                  rfl
                · rw [if_neg hm]
                  exact noContig_nil
              | some q => exact noContig_nil
            · split
              · refine noContig_single ?_
                rfl
              · exact noContig_nil
            · cases ls with
              | none => exact noContig_nil
              | some p =>
                show ∀ e ∈ (if m ≤ p then [VErr.subIdNotIncreasing i k p] else []),
                  isContigErr e = false
                by_cases hp : m ≤ p
                · rw [if_pos hp]
                  refine noContig_single ?_
                  rfl
                · rw [if_neg hp]
                  exact noContig_nil
          | str a => exact noContig_single rfl
          | bool a => exact noContig_single rfl
          | null => exact noContig_single rfl
          | arr a => exact noContig_single rfl
          | obj a => exact noContig_single rfl
      · split
        · exact noContig_nil
        · exact noContig_single rfl
      · split
        · split
          · exact noContig_nil
          · exact noContig_single rfl
        · exact noContig_single rfl
      · split
        · exact noContig_nil
        · exact noContig_verifyList _ _ 0
        · exact noContig_single rfl

/-- With an integer id, the updated `expected_id` is always `expected + 1`. -/
theorem validateStep_snd (i : Nat) (expected : Int) (fs : List (String × JVal))
    (m : Int) (hid : objGet fs "id" = some (.int m)) :
    (validateStep i expected (.obj fs)).2 = expected + 1 := by
  simp [validateStep, hid]

/-- A step with integer id `m` yields no contiguity error iff `m` is the
expected id; all other error sources of a step never emit one. -/
theorem validateStep_contig_iff (i : Nat) (expected : Int) (fs : List (String × JVal))
    (m : Int) (hid : objGet fs "id" = some (.int m)) :
    ((∀ e ∈ (validateStep i expected (.obj fs)).1, isContigErr e = false) ↔
      m = expected) := by
  constructor
  · intro h
    by_contra hne
    have hmem : VErr.idNotContiguous i expected ∈ (validateStep i expected (.obj fs)).1 := by
      simp [validateStep, hid, if_pos hne]
    simpa [isContigErr] using h _ hmem
  · intro heq
    subst heq
    simp only [validateStep, hid]
    refine noContig_append (noContig_append (noContig_append (noContig_append
      (noContig_append (noContig_append (noContig_append (noContig_append ?_ ?_) ?_) ?_)
        ?_) ?_) ?_) ?_) ?_
    · split
      · exact noContig_single rfl
      · exact noContig_nil
    · rw [if_neg (fun hc => hc rfl)]
      exact noContig_nil
    · split
      · exact noContig_nil
      · exact noContig_single rfl
    · split
      · split
        · exact noContig_nil
        · exact noContig_single rfl
      · exact noContig_single rfl
    · split
      · split
        · exact noContig_nil
        · exact noContig_single rfl
      · exact noContig_nil
    · split
      · split
        · exact noContig_nil
        · exact noContig_single rfl
      · exact noContig_nil
    · split
      · exact noContig_nil
      · exact noContig_verifyList _ _ 0
      · exact noContig_single rfl
    · split
      · exact noContig_single rfl
      · exact noContig_nil
    · split
      · exact noContig_nil
      · exact noContig_substeps _ i 0 none none
      · exact noContig_single rfl

/-- The step loop yields no contiguity error iff the ids are exactly the
contiguous run starting at `expected`. -/
theorem validateSteps_contig_iff :
    ∀ (sts : List JVal) (i : Nat) (expected : Int),
      (∀ st ∈ sts, hasIntId st = true) →
      ((∀ e ∈ validateSteps i expected sts, isContigErr e = false) ↔
        sts.map stepIdInt = seqFrom expected sts.length) := by
  intro sts
  induction sts with
  | nil =>
    intro i expected hids
    simp [validateSteps, seqFrom]
  | cons st rest ih =>
    intro i expected hids
    obtain ⟨fs, m, rfl, hid⟩ := hasIntId_elim (hids st (List.mem_cons_self st rest))
    rw [validateSteps, List.forall_mem_append,
      validateStep_contig_iff i expected fs m hid,
      validateStep_snd i expected fs m hid,
      ih (i + 1) (expected + 1) (fun s hs => hids s (List.mem_cons_of_mem _ hs))]
    simp [seqFrom, stepIdInt, hid]

/-- C7: for every plan object whose steps all carry integer ids,
`validate_plan` reports no id-contiguity error exactly when the ids are
`1..N` in order (`steps[i].id == i+1`); any other id assignment yields a
contiguity error, and steps beyond a broken link are checked against the
resynchronized expectation, as in the source. -/
theorem validate_contiguity (fs : List (String × JVal)) (sts : List JVal)
    (hst : objGet fs "steps" = some (.arr sts))
    (hids : ∀ st ∈ sts, hasIntId st = true) :
    ((∀ e ∈ validate_plan (.obj fs), isContigErr e = false) ↔
      sts.map stepIdInt = seqFrom 1 sts.length) := by
  cases sts with
  | nil =>
    simp only [validate_plan, hst]
    constructor
    · intro _
      simp [seqFrom]
    · intro _
      refine noContig_append (noContig_append ?_ ?_) (noContig_single rfl)
      · split
        · exact noContig_nil
        · exact noContig_single rfl
      · split
        · exact noContig_single rfl
        · exact noContig_nil
  | cons s0 rest =>
    simp only [validate_plan, hst]
    constructor
    · intro h
      refine (validateSteps_contig_iff (s0 :: rest) 0 1 hids).mp ?_
      intro e he
      exact h e (List.mem_append_right _ he)
    · intro h
      refine noContig_append (noContig_append ?_ ?_)
        ((validateSteps_contig_iff (s0 :: rest) 0 1 hids).mpr h)
      · split
        · exact noContig_nil
        · exact noContig_single rfl
      · split
        · exact noContig_single rfl
        · exact noContig_nil

/-- Steps `id 1, id 2` for the C7 witness. -/
def c7Steps : List JVal :=
  [.obj [("id", .int 1), ("goal", .str "open"), ("action", .str "CLICK")],
   .obj [("id", .int 2), ("goal", .str "buy"), ("action", .str "CLICK")]]

/-- Witness for C7 at a concrete two-step plan. -/
theorem validate_contiguity_witness :
    ((∀ e ∈ validate_plan (.obj [("task", .str "t"), ("steps", .arr c7Steps)]),
        isContigErr e = false) ↔
      c7Steps.map stepIdInt = seqFrom 1 c7Steps.length) :=
  validate_contiguity [("task", .str "t"), ("steps", .arr c7Steps)] c7Steps rfl
    (by decide)

/-! ## C10: idempotence of the normalizer -/

theorem toNat_ofNat_valid {n : Nat} (h : n.isValidChar) : (Char.ofNat n).toNat = n := by
  unfold Char.ofNat
  rw [dif_pos h]
  rfl

theorem char_eq_iff_toNat {c d : Char} : c = d ↔ c.toNat = d.toNat := by
  constructor
  · intro h; rw [h]
  · intro h
    apply Char.eq_of_val_eq
    apply UInt32.eq_of_toBitVec_eq
    apply BitVec.eq_of_toNat_eq
    exact h

theorem upper_idem (c : Char) : c.toUpper.toUpper = c.toUpper := by
  unfold Char.toUpper
  by_cases h : c.toNat ≥ 97 ∧ c.toNat ≤ 122
  · rw [if_pos h]
    have ht : (Char.ofNat (c.toNat - 32)).toNat = c.toNat - 32 :=
      toNat_ofNat_valid (Or.inl (by omega))
    rw [if_neg]
    omega
  · rw [if_neg h, if_neg h]

theorem isWs_false_of_toNat {c : Char} (h : 65 ≤ c.toNat ∧ c.toNat ≤ 122) : isWs c = false := by
  simp only [isWs, Bool.or_eq_false_iff, beq_eq_false_iff_ne, ne_eq, char_eq_iff_toNat]
  have hsp : (' ' : Char).toNat = 32 := by decide
  have hta : ('\t' : Char).toNat = 9 := by decide
  have hnl : ('\n' : Char).toNat = 10 := by decide
  have hcr : ('\r' : Char).toNat = 13 := by decide
  refine ⟨⟨⟨?_, ?_⟩, ?_⟩, ?_⟩ <;> omega

theorem isWs_upper (c : Char) : isWs c.toUpper = isWs c := by
  unfold Char.toUpper
  by_cases h : c.toNat ≥ 97 ∧ c.toNat ≤ 122
  · rw [if_pos h]
    have ht : (Char.ofNat (c.toNat - 32)).toNat = c.toNat - 32 :=
      toNat_ofNat_valid (Or.inl (by omega))
    rw [isWs_false_of_toNat (by omega), isWs_false_of_toNat (by omega)]
  · rw [if_neg h]

theorem head_dropWhile_false {p : Char → Bool} :
    ∀ (l : List Char) (c : Char) (cs : List Char),
      l.dropWhile p = c :: cs → p c = false := by
  intro l
  induction l with
  | nil => intro c cs h; cases h
  | cons a rest ih =>
    intro c cs h
    rw [List.dropWhile_cons] at h
    by_cases hp : p a = true
    · rw [if_pos hp] at h
      exact ih c cs h
    · rw [if_neg hp] at h
      cases h
      simpa using hp

theorem dropWhile_head?_false {p : Char → Bool} (l : List Char) (c : Char)
    (h : (l.dropWhile p).head? = some c) : p c = false := by
  cases hd : l.dropWhile p with
  | nil => rw [hd] at h; cases h
  | cons a as =>
    rw [hd] at h
    have ha : a = c := by simpa using h
    subst ha
    exact head_dropWhile_false l a as hd

theorem dropWhile_eq_self_of_head? {p : Char → Bool} (l : List Char) (c : Char)
    (hc : l.head? = some c) (hpc : p c = false) : l.dropWhile p = l := by
  cases l with
  | nil => rfl
  | cons a as =>
    have ha : a = c := by simpa using hc
    subst ha
    simp [List.dropWhile_cons, hpc]

theorem getLast?_dropWhile {p : Char → Bool} (l : List Char)
    (hne : l.dropWhile p ≠ []) : (l.dropWhile p).getLast? = l.getLast? := by
  conv_rhs => rw [← List.takeWhile_append_dropWhile p l]
  rw [List.getLast?_append]
  obtain ⟨x, hx⟩ := Option.isSome_iff_exists.mp (List.getLast?_isSome.mpr hne)
  rw [hx]
  rfl

theorem stripChars_head?_false (l : List Char) (c : Char)
    (h : (stripChars l).head? = some c) : isWs c = false := by
  simp only [stripChars] at h
  rw [List.head?_reverse] at h
  have hne : (l.dropWhile isWs).reverse.dropWhile isWs ≠ [] := by
    intro h0
    rw [h0] at h
    cases h
  rw [getLast?_dropWhile _ hne, List.getLast?_reverse] at h
  exact dropWhile_head?_false l c h

theorem stripChars_getLast?_false (l : List Char) (c : Char)
    (h : (stripChars l).getLast? = some c) : isWs c = false := by
  simp only [stripChars] at h
  rw [List.getLast?_reverse] at h
  exact dropWhile_head?_false _ c h

theorem stripChars_idem (l : List Char) : stripChars (stripChars l) = stripChars l := by
  cases hs : stripChars l with
  | nil => rfl
  | cons c cs =>
    have hhead : isWs c = false := stripChars_head?_false l c (by rw [hs]; rfl)
    obtain ⟨d, hd⟩ : ∃ d, (c :: cs).getLast? = some d :=
      Option.isSome_iff_exists.mp (List.getLast?_isSome.mpr (by simp))
    have hlast : isWs d = false := stripChars_getLast?_false l d (by rw [hs]; exact hd)
    have h1 : (c :: cs).dropWhile isWs = c :: cs :=
      dropWhile_eq_self_of_head? _ c rfl hhead
    have h2 : (c :: cs).reverse.dropWhile isWs = (c :: cs).reverse := by
      apply dropWhile_eq_self_of_head? _ d _ hlast
      rw [List.head?_reverse]
      exact hd
    show (((c :: cs).dropWhile isWs).reverse.dropWhile isWs).reverse = c :: cs
    rw [h1, h2, List.reverse_reverse]

theorem dropWhile_isWs_map_upper (l : List Char) :
    (l.map Char.toUpper).dropWhile isWs = (l.dropWhile isWs).map Char.toUpper := by
  induction l with
  | nil => rfl
  | cons c rest ih =>
    simp only [List.map_cons, List.dropWhile_cons, isWs_upper]
    by_cases h : isWs c = true
    · simp [h, ih]
    · simp [h]

theorem stripChars_map_upper (l : List Char) :
    stripChars (l.map Char.toUpper) = (stripChars l).map Char.toUpper := by
  simp only [stripChars]
  rw [dropWhile_isWs_map_upper, ← List.map_reverse, dropWhile_isWs_map_upper,
    ← List.map_reverse]

theorem pyStrip_pyUpper (s : String) : pyStrip (pyUpper s) = pyUpper (pyStrip s) := by
  simp only [pyStrip, pyUpper]
  show String.mk (stripChars (s.toList.map Char.toUpper)) =
    String.mk ((stripChars s.toList).map Char.toUpper)
  rw [stripChars_map_upper]

theorem pyUpper_idem (s : String) : pyUpper (pyUpper s) = pyUpper s := by
  simp only [pyUpper]
  show String.mk ((s.toList.map Char.toUpper).map Char.toUpper) =
    String.mk (s.toList.map Char.toUpper)
  rw [List.map_map]
  congr 1
  apply List.map_congr_left
  intro a _
  simp only [Function.comp_apply]
  exact upper_idem a

theorem pyStrip_idem (s : String) : pyStrip (pyStrip s) = pyStrip s := by
  simp only [pyStrip]
  show String.mk (stripChars (stripChars s.toList)) = String.mk (stripChars s.toList)
  rw [stripChars_idem]

theorem actionAlias_idem (a : String) : actionAlias (actionAlias a) = actionAlias a := by
  simp only [actionAlias]
  by_cases h : (pyUpper (pyStrip a) == "TYPE") = true
  · rw [if_pos h]
    rfl
  · rw [if_neg h]
    rw [pyStrip_pyUpper, pyStrip_idem, pyUpper_idem]
    rw [if_neg h]

/-- Outcomes of the multi-arg `url_contains` rewrite. -/
theorem nveMultiArg_cases (fs : List (String × JVal)) :
    nveMultiArg fs = fs ∨
    ∃ args : List JVal, objGet fs "predicate" = some (.str "url_contains") ∧
      objGet fs "args" = some (.arr args) ∧
      (decide (args.length > 1) && args.all isStrJ) = true := by
  rw [nveMultiArg]
  split
  next args heq1 heq2 =>
    by_cases hc : (decide (args.length > 1) && args.all isStrJ) = true
    · right
      exact ⟨args, heq1, heq2, hc⟩
    · left
      rw [if_neg hc]
  next => left; rfl

/-- Evaluation of the multi-arg rewrite when it fires. -/
theorem nveMultiArg_eval (fs : List (String × JVal)) (args : List JVal)
    (h1 : objGet fs "predicate" = some (.str "url_contains"))
    (h2 : objGet fs "args" = some (.arr args))
    (h3 : (decide (args.length > 1) && args.all isStrJ) = true) :
    nveMultiArg fs = objSet (objSet fs "predicate" (.str "any_of")) "args"
      (.arr (args.map wrapUrlContains)) := by
  rw [nveMultiArg]
  simp only [h1, h2, h3, if_pos]

/-- Outcomes of the `/dp/` path-fragment rewrite. -/
theorem nvePathFragment_cases (fs : List (String × JVal)) :
    nvePathFragment fs = fs ∨
    ∃ (a0 : String) (tail : List JVal),
      objGet fs "predicate" = some (.str "url_matches") ∧
      objGet fs "args" = some (.arr (.str a0 :: tail)) ∧
      strContains a0 "/dp/" = true := by
  rw [nvePathFragment]
  split
  next args heq1 heq2 =>
    split
    next a0 tail =>
      by_cases hc : strContains a0 "/dp/" = true
      · right
        exact ⟨a0, tail, heq1, heq2, hc⟩
      · left
        rw [if_neg hc]
    next => left; rfl
  next => left; rfl

/-- Evaluation of the path-fragment rewrite when it fires. -/
theorem nvePathFragment_eval (fs : List (String × JVal)) (a0 : String) (tail : List JVal)
    (h1 : objGet fs "predicate" = some (.str "url_matches"))
    (h2 : objGet fs "args" = some (.arr (.str a0 :: tail)))
    (h3 : strContains a0 "/dp/" = true) :
    nvePathFragment fs = objSet (objSet fs "predicate" (.str "url_contains")) "args"
      (.arr [.str "/dp/"]) := by
  rw [nvePathFragment]
  simp only [h1, h2, h3, if_pos]

theorem nveMultiArg_id_of_pred (fs : List (String × JVal)) (p : String)
    (h : objGet fs "predicate" = some (.str p))
    (hp : (p == "url_contains") = false) : nveMultiArg fs = fs := by
  rw [nveMultiArg]
  split
  next args heq1 heq2 =>
    rw [h] at heq1
    have hpe := JVal.str.inj (Option.some.inj heq1)
    simp [hpe] at hp
  next => rfl

theorem nveMultiArg_id_of_args (fs : List (String × JVal)) (args : List JVal)
    (h1 : objGet fs "predicate" = some (.str "url_contains"))
    (h2 : objGet fs "args" = some (.arr args))
    (h3 : (decide (args.length > 1) && args.all isStrJ) = false) :
    nveMultiArg fs = fs := by
  rw [nveMultiArg]
  simp [h1, h2, h3]

theorem nvePathFragment_id_of_pred (fs : List (String × JVal)) (p : String)
    (h : objGet fs "predicate" = some (.str p))
    (hp : (p == "url_matches") = false) : nvePathFragment fs = fs := by
  rw [nvePathFragment]
  split
  next args heq1 heq2 =>
    rw [h] at heq1
    have hpe := JVal.str.inj (Option.some.inj heq1)
    simp [hpe] at hp
  next => rfl

/-- One round of both verify-entry rewrites is idempotent on step dicts. -/
theorem nve_obj_idem (fs : List (String × JVal)) :
    nvePathFragment (nveMultiArg (nvePathFragment (nveMultiArg fs))) =
      nvePathFragment (nveMultiArg fs) := by
  rcases nveMultiArg_cases fs with hM | ⟨args, hMp, hMa, hMc⟩
  · rw [hM]
    rcases nvePathFragment_cases fs with hP | ⟨a0, tail, hPp, hPa, hPc⟩
    · rw [hP, hM, hP]
    · rw [nvePathFragment_eval fs a0 tail hPp hPa hPc]
      have hgp : objGet (objSet (objSet fs "predicate" (.str "url_contains")) "args"
          (.arr [.str "/dp/"])) "predicate" = some (.str "url_contains") := by
        rw [objGet_objSet_ne _ _ _ _ (by decide), objGet_objSet_self]
      have hga : objGet (objSet (objSet fs "predicate" (.str "url_contains")) "args"
          (.arr [.str "/dp/"])) "args" = some (.arr [.str "/dp/"]) :=
        objGet_objSet_self _ _ _
      have hMg := nveMultiArg_id_of_args _ [.str "/dp/"] hgp hga (by decide)
      rw [hMg]
      exact nvePathFragment_id_of_pred _ "url_contains" hgp (by decide)
  · rw [nveMultiArg_eval fs args hMp hMa hMc]
    have hXp : objGet (objSet (objSet fs "predicate" (.str "any_of")) "args"
        (.arr (args.map wrapUrlContains))) "predicate" = some (.str "any_of") := by
      rw [objGet_objSet_ne _ _ _ _ (by decide), objGet_objSet_self]
    have hPX := nvePathFragment_id_of_pred _ "any_of" hXp (by decide)
    have hMX := nveMultiArg_id_of_pred _ "any_of" hXp (by decide)
    rw [hPX, hMX, hPX]

/-- `normalizeVerifyEntry` is idempotent. -/
theorem normalizeVerifyEntry_idem (v : JVal) :
    normalizeVerifyEntry (normalizeVerifyEntry v) = normalizeVerifyEntry v := by
  cases v with
  | obj fs =>
    simp only [normalizeVerifyEntry]
    exact congrArg JVal.obj (nve_obj_idem fs)
  | str s => rfl
  | int n => rfl
  | bool b => rfl
  | null => rfl
  | arr l => rfl

theorem map_nve_idem (vs : List JVal) :
    (vs.map normalizeVerifyEntry).map normalizeVerifyEntry = vs.map normalizeVerifyEntry := by
  rw [List.map_map]
  apply List.map_congr_left
  intro v _
  simp only [Function.comp_apply]
  exact normalizeVerifyEntry_idem v

theorem nsUrl_id (fs : List (String × JVal))
    (h : objGet fs "url" = none ∨ objHas fs "target" = true) : nsUrl fs = fs := by
  rcases h with h | h
  · simp [nsUrl, h]
  · rw [nsUrl]
    split
    next u heq => rw [if_pos h]
    next => rfl

theorem nsAction_id (fs : List (String × JVal))
    (h : ∀ a, objGet fs "action" = some (.str a) → actionAlias a = a) :
    nsAction fs = fs := by
  rw [nsAction]
  split
  next a heq => rw [h a heq, objSet_self _ _ _ heq]
  next => rfl

theorem nsVerify_id (fs : List (String × JVal))
    (h : ∀ vs, objGet fs "verify" = some (.arr vs) →
      vs.map normalizeVerifyEntry = vs) : nsVerify fs = fs := by
  rw [nsVerify]
  split
  next vs heq => rw [h vs heq, objSet_self _ _ _ heq]
  next => rfl

theorem nsPlaceholder_id (fs : List (String × JVal))
    (h : ∀ t, objGet fs "target" = some (.str t) →
      strContains t "product-url" = false) : nsPlaceholder fs = fs := by
  rw [nsPlaceholder]
  split
  next t heq => simp [h t heq]
  next => rfl

theorem objGet_nsAction_ne (fs : List (String × JVal)) (k : String)
    (hk : k ≠ "action") : objGet (nsAction fs) k = objGet fs k := by
  rw [nsAction]
  split
  next a heq => rw [objGet_objSet_ne _ _ _ _ hk]
  next => rfl

theorem objGet_nsVerify_ne (fs : List (String × JVal)) (k : String)
    (hk : k ≠ "verify") : objGet (nsVerify fs) k = objGet fs k := by
  rw [nsVerify]
  split
  next vs heq => rw [objGet_objSet_ne _ _ _ _ hk]
  next => rfl

/-- After the action stage, any string action is a fixed point of
`actionAlias`. -/
theorem nsAction_fact (fs : List (String × JVal)) :
    ∀ a, objGet (nsAction fs) "action" = some (.str a) → actionAlias a = a := by
  intro a ha
  rw [nsAction] at ha
  split at ha
  next a0 heq =>
    rw [objGet_objSet_self] at ha
    have h2 : actionAlias a0 = a := JVal.str.inj (Option.some.inj ha)
    rw [← h2]
    exact actionAlias_idem a0
  next h => exact absurd ha (h a)

/-- After the verify stage, any verify list is a fixed point of the
entry-wise rewrite. -/
theorem nsVerify_fact (fs : List (String × JVal)) :
    ∀ vs, objGet (nsVerify fs) "verify" = some (.arr vs) →
      vs.map normalizeVerifyEntry = vs := by
  intro vs hv
  rw [nsVerify] at hv
  split at hv
  next vs0 heq =>
    rw [objGet_objSet_self] at hv
    have h3 := JVal.arr.inj (Option.some.inj hv)
    rw [← h3]
    exact map_nve_idem vs0
  next h => exact absurd hv (h vs)

/-- Outcomes of the url-rename stage. -/
theorem nsUrl_cases (fs0 : List (String × JVal)) :
    (objGet fs0 "url" = none ∧ nsUrl fs0 = fs0) ∨
    (∃ u, objGet fs0 "url" = some u ∧ objHas fs0 "target" = true ∧ nsUrl fs0 = fs0) ∨
    (∃ u, objGet fs0 "url" = some u ∧ objHas fs0 "target" = false ∧
      nsUrl fs0 = objSet (objPop fs0 "url") "target" u) := by
  cases hu : objGet fs0 "url" with
  | none => exact Or.inl ⟨rfl, by simp [nsUrl, hu]⟩
  | some u =>
    by_cases hT : objHas fs0 "target" = true
    · exact Or.inr (Or.inl ⟨u, rfl, hT, by simp [nsUrl, hu, hT]⟩)
    · have hT' : objHas fs0 "target" = false := by simpa using hT
      exact Or.inr (Or.inr ⟨u, rfl, hT', by simp [nsUrl, hu, hT']⟩)

/-- Outcomes of the placeholder-target stage. -/
theorem nsPlaceholder_cases (fs : List (String × JVal)) :
    (nsPlaceholder fs = fs ∧
      ∀ t, objGet fs "target" = some (.str t) → strContains t "product-url" = false) ∨
    (∃ t iv gv, objGet fs "target" = some (.str t) ∧ strContains t "product-url" = true ∧
      nsPlaceholder fs =
        objSet (objSet (objSet (objSet (objPop fs "target") "action" (.str "CLICK"))
          "intent" iv) "goal" gv) "verify" placeholderVerify) := by
  cases ht : objGet fs "target" with
  | none =>
    left
    refine ⟨by simp [nsPlaceholder, ht], ?_⟩
    intro t' ht'
    cases ht'
  | some v =>
    cases v with
    | str t =>
      by_cases hc : strContains t "product-url" = true
      · right
        have hmain : ∃ iv gv, nsPlaceholder fs =
            objSet (objSet (objSet (objSet (objPop fs "target") "action" (.str "CLICK"))
              "intent" iv) "goal" gv) "verify" placeholderVerify := by
          simp only [nsPlaceholder, ht]
          rw [if_pos hc]
          exact ⟨_, _, rfl⟩
        obtain ⟨iv, gv, hmain⟩ := hmain
        exact ⟨t, iv, gv, rfl, hc, hmain⟩
      · left
        refine ⟨by simp [nsPlaceholder, ht, hc], ?_⟩
        intro t' ht'
        have hte : t = t' := JVal.str.inj (Option.some.inj ht')
        subst hte
        simpa using hc
    | int n =>
      left
      refine ⟨by simp [nsPlaceholder, ht], ?_⟩
      intro t' ht'
      simp at ht'
    | bool b =>
      left
      refine ⟨by simp [nsPlaceholder, ht], ?_⟩
      intro t' ht'
      simp at ht'
    | null =>
      left
      refine ⟨by simp [nsPlaceholder, ht], ?_⟩
      intro t' ht'
      simp at ht'
    | arr l =>
      left
      refine ⟨by simp [nsPlaceholder, ht], ?_⟩
      intro t' ht'
      simp at ht'
    | obj l =>
      left
      refine ⟨by simp [nsPlaceholder, ht], ?_⟩
      intro t' ht'
      simp at ht'

theorem firedTerm_url (fs : List (String × JVal)) (iv gv : JVal) :
    objGet (objSet (objSet (objSet (objSet (objPop fs "target") "action" (.str "CLICK"))
      "intent" iv) "goal" gv) "verify" placeholderVerify) "url" = objGet fs "url" := by
  rw [objGet_objSet_ne _ _ _ _ (by decide), objGet_objSet_ne _ _ _ _ (by decide),
    objGet_objSet_ne _ _ _ _ (by decide), objGet_objSet_ne _ _ _ _ (by decide),
    objGet_objPop_ne _ _ _ (by decide)]

theorem firedTerm_target (fs : List (String × JVal)) (iv gv : JVal) :
    objGet (objSet (objSet (objSet (objSet (objPop fs "target") "action" (.str "CLICK"))
      "intent" iv) "goal" gv) "verify" placeholderVerify) "target" = none := by
  rw [objGet_objSet_ne _ _ _ _ (by decide), objGet_objSet_ne _ _ _ _ (by decide),
    objGet_objSet_ne _ _ _ _ (by decide), objGet_objSet_ne _ _ _ _ (by decide),
    objGet_objPop_self]

theorem firedTerm_action (fs : List (String × JVal)) (iv gv : JVal) :
    objGet (objSet (objSet (objSet (objSet (objPop fs "target") "action" (.str "CLICK"))
      "intent" iv) "goal" gv) "verify" placeholderVerify) "action" =
      some (.str "CLICK") := by
  rw [objGet_objSet_ne _ _ _ _ (by decide), objGet_objSet_ne _ _ _ _ (by decide),
    objGet_objSet_ne _ _ _ _ (by decide), objGet_objSet_self]

theorem firedTerm_verify (fs : List (String × JVal)) (iv gv : JVal) :
    objGet (objSet (objSet (objSet (objSet (objPop fs "target") "action" (.str "CLICK"))
      "intent" iv) "goal" gv) "verify" placeholderVerify) "verify" =
      some placeholderVerify :=
  objGet_objSet_self _ _ _

/-- A step dict on which all four stages are identities is a
`normalizeStep` fixed point. -/
theorem normalizeStep_obj_id (fs : List (String × JVal))
    (h1 : objGet fs "url" = none ∨ objHas fs "target" = true)
    (h2 : ∀ a, objGet fs "action" = some (.str a) → actionAlias a = a)
    (h3 : ∀ vs, objGet fs "verify" = some (.arr vs) → vs.map normalizeVerifyEntry = vs)
    (h4 : ∀ t, objGet fs "target" = some (.str t) → strContains t "product-url" = false) :
    normalizeStep (.obj fs) = .obj fs := by
  simp only [normalizeStep]
  rw [nsUrl_id fs h1, nsAction_id fs h2, nsVerify_id fs h3, nsPlaceholder_id fs h4]

/-- The placeholder-converted step is a `normalizeStep` fixed point
whenever the source dict carried no `url` key. -/
theorem firedTerm_step_id (fs3 : List (String × JVal)) (iv gv : JVal)
    (hurl : objGet fs3 "url" = none) :
    normalizeStep (.obj (objSet (objSet (objSet (objSet (objPop fs3 "target") "action"
      (.str "CLICK")) "intent" iv) "goal" gv) "verify" placeholderVerify)) =
    .obj (objSet (objSet (objSet (objSet (objPop fs3 "target") "action" (.str "CLICK"))
      "intent" iv) "goal" gv) "verify" placeholderVerify) := by
  apply normalizeStep_obj_id
  · left
    rw [firedTerm_url]
    exact hurl
  · intro a ha
    rw [firedTerm_action] at ha
    have h2 : "CLICK" = a := JVal.str.inj (Option.some.inj ha)
    rw [← h2]
    rfl
  · intro vs hv
    rw [firedTerm_verify] at hv
    have h4 : [JVal.obj [("predicate", .str "url_contains"), ("args", .arr [.str "/dp/"])]]
        = vs := JVal.arr.inj (Option.some.inj hv)
    rw [← h4]
    rfl
  · intro t' ht'
    rw [firedTerm_target] at ht'
    cases ht'

/-- `normalizeStep` is idempotent on every step without the
url/placeholder-target clash. -/
theorem normalizeStep_idem (s : JVal) (hcl : stepUrlTargetClash s = false) :
    normalizeStep (normalizeStep s) = normalizeStep s := by
  cases s with
  | str a => rfl
  | int n => rfl
  | bool b => rfl
  | null => rfl
  | arr l => rfl
  | obj fs0 =>
    show normalizeStep (.obj (nsPlaceholder (nsVerify (nsAction (nsUrl fs0))))) =
      .obj (nsPlaceholder (nsVerify (nsAction (nsUrl fs0))))
    have hTpres : objGet (nsVerify (nsAction (nsUrl fs0))) "target" =
        objGet (nsUrl fs0) "target" := by
      rw [objGet_nsVerify_ne _ _ (by decide), objGet_nsAction_ne _ _ (by decide)]
    have hUpres : objGet (nsVerify (nsAction (nsUrl fs0))) "url" =
        objGet (nsUrl fs0) "url" := by
      rw [objGet_nsVerify_ne _ _ (by decide), objGet_nsAction_ne _ _ (by decide)]
    rcases nsPlaceholder_cases (nsVerify (nsAction (nsUrl fs0))) with
      ⟨hPid, hPtgt⟩ | ⟨t, iv, gv, htgt, hc, hPF⟩
    · rw [hPid]
      have h1 : objGet (nsVerify (nsAction (nsUrl fs0))) "url" = none ∨
          objHas (nsVerify (nsAction (nsUrl fs0))) "target" = true := by
        rcases nsUrl_cases fs0 with ⟨hu, he⟩ | ⟨u, hu, hT, he⟩ | ⟨u, hu, hT, he⟩
        · left
          rw [hUpres, he, hu]
        · right
          simp only [objHas] at hT ⊢
          rw [hTpres, he]
          exact hT
        · right
          simp only [objHas]
          rw [hTpres, he, objGet_objSet_self]
          rfl
      have h2 : ∀ a, objGet (nsVerify (nsAction (nsUrl fs0))) "action" = some (.str a) →
          actionAlias a = a := by
        intro a ha
        rw [objGet_nsVerify_ne _ _ (by decide)] at ha
        exact nsAction_fact _ a ha
      exact normalizeStep_obj_id _ h1 h2 (nsVerify_fact (nsAction (nsUrl fs0))) hPtgt
    · rw [hPF]
      rcases nsUrl_cases fs0 with ⟨hu, he⟩ | ⟨u, hu, hT, he⟩ | ⟨u, hu, hT, he⟩
      · refine firedTerm_step_id _ iv gv ?_
        rw [hUpres, he, hu]
      · exfalso
        have htgt0 : objGet fs0 "target" = some (.str t) := by
          rw [← he, ← hTpres]
          exact htgt
        have hcl2 : stepUrlTargetClash (.obj fs0) = true := by
          simp [stepUrlTargetClash, objHas, hu, htgt0, hc]
        rw [hcl] at hcl2
        cases hcl2
      · refine firedTerm_step_id _ iv gv ?_
        rw [hUpres, he, objGet_objSet_ne _ _ _ _ (by decide), objGet_objPop_self]

/-- Probe: does the first step of the plan still carry a `url` key? -/
def firstStepHasUrl (p : JVal) : Bool :=
  match p with
  | .obj fs =>
    match objGet fs "steps" with
    | some (.arr (st :: _)) =>
      match st with
      | .obj sfs => objHas sfs "url"
      | _ => false
    | _ => false
  | _ => false

/-- C10 counterexample: on a step carrying both a `url` key and a
placeholder `target`, the first pass keeps `url` (target present) and the
placeholder rewrite then pops `target`; the second pass renames the
surviving `url` to `target`, so the two passes disagree. -/
theorem normalize_not_idempotent_cex :
    normalize_plan (normalize_plan (.obj [("steps", .arr [.obj [("url", .str "A"),
      ("target", .str "x-product-url")]])])) ≠
    normalize_plan (.obj [("steps", .arr [.obj [("url", .str "A"),
      ("target", .str "x-product-url")]])]) := by
  intro h
  have h1 : firstStepHasUrl (normalize_plan (.obj [("steps", .arr [.obj [("url", .str "A"),
      ("target", .str "x-product-url")]])])) = true := rfl
  have h2 : firstStepHasUrl (normalize_plan (normalize_plan (.obj [("steps",
      .arr [.obj [("url", .str "A"), ("target", .str "x-product-url")]])]))) = false := rfl
  rw [h, h1] at h2
  cases h2

/-- C10 (amended): `normalize_plan` is idempotent on every plan object
none of whose steps carries both a `url` key and a string `target`
containing the `"product-url"` placeholder token; on such clashing steps
a second pass renames the `url` left behind by the placeholder rewrite,
as the counterexample shows. -/
theorem normalize_idempotent (fs : List (String × JVal))
    (h : noUrlTargetClash fs = true) :
    normalize_plan (normalize_plan (.obj fs)) = normalize_plan (.obj fs) := by
  cases hst : objGet fs "steps" with
  | none =>
    have h1 : normalize_plan (.obj fs) = .obj fs := by simp [normalize_plan, hst]
    rw [h1, h1]
  | some v =>
    cases v with
    | arr steps =>
      have hall : ∀ st ∈ steps, stepUrlTargetClash st = false := by
        simp only [noUrlTargetClash, hst] at h
        intro st hstm
        have h2 := List.all_eq_true.mp h st hstm
        simpa using h2
      have hmap : (steps.map normalizeStep).map normalizeStep =
          steps.map normalizeStep := by
        rw [List.map_map]
        apply List.map_congr_left
        intro st hstm
        simp only [Function.comp_apply]
        exact normalizeStep_idem st (hall st hstm)
      have h1 : normalize_plan (.obj fs) =
          .obj (objSet fs "steps" (.arr (steps.map normalizeStep))) := by
        simp [normalize_plan, hst]
      rw [h1]
      simp only [normalize_plan, objGet_objSet_self]
      rw [objSet_objSet, hmap]
    | str s =>
      have h1 : normalize_plan (.obj fs) = .obj fs := by simp [normalize_plan, hst]
      rw [h1, h1]
    | int n =>
      have h1 : normalize_plan (.obj fs) = .obj fs := by simp [normalize_plan, hst]
      rw [h1, h1]
    | bool b =>
      have h1 : normalize_plan (.obj fs) = .obj fs := by simp [normalize_plan, hst]
      rw [h1, h1]
    | null =>
      have h1 : normalize_plan (.obj fs) = .obj fs := by simp [normalize_plan, hst]
      rw [h1, h1]
    | obj l =>
      have h1 : normalize_plan (.obj fs) = .obj fs := by simp [normalize_plan, hst]
      rw [h1, h1]

/-- Witness for the amended C10 at a concrete clash-free plan. -/
theorem normalize_idempotent_witness :
    noUrlTargetClash [("task", .str "t"), ("steps", .arr [.obj [("id", .int 1),
      ("url", .str "https://a.example")]])] = true ∧
    normalize_plan (normalize_plan (.obj [("task", .str "t"), ("steps",
      .arr [.obj [("id", .int 1), ("url", .str "https://a.example")]])])) =
    normalize_plan (.obj [("task", .str "t"), ("steps", .arr [.obj [("id", .int 1),
      ("url", .str "https://a.example")]])]) :=
  ⟨rfl, normalize_idempotent _ rfl⟩
